import Mathlib

/-!
# The JACK output plugin of DeaDBeeF (`ddb_jack.c`)

A shallow embedding of the plugin's connection state, its host operations
(`ddb_jack_init`, `ddb_jack_setformat`, `ddb_playback_play`, `ddb_playback_pause`,
`ddb_playback_stop`, `ddb_jack_free`) and its server callbacks (`jack_proc_cb`,
`jack_rate_cb`, `jack_shutdown_cb`).

The global `con` becomes an explicit `ddb_jack_connector` value that every operation
takes and returns.  Calls into the JACK library and into the DeaDBeeF API are recorded,
in program order, in a trace of `Event`s; what those calls answer is supplied by a
world record (`InitWorld`, `ProcWorld`).  C `int` arithmetic is arithmetic on `Int`
followed by `toInt32`, `jack_nframes_t` arithmetic is reduced by `toUInt32`.
-/

namespace DdbJack

/-! ## Machine integers and constants of the C library -/

/-- The C `int` (32-bit two's complement) that holds the integer `x`: the residue of `x`
modulo 2^32, taken as negative from 2^31 on. -/
def toInt32 (x : Int) : Int :=
  if 2147483648 ≤ x % 4294967296 then x % 4294967296 - 4294967296 else x % 4294967296

/-- Conversion to `jack_nframes_t` (`uint32_t`). -/
def toUInt32 (x : Int) : Nat := (x % 4294967296).toNat

/-- The errno value `EIO` of `errno.h` (Linux). -/
def EIO : Int := 5

/-- The errno value `ENXIO` of `errno.h` (Linux). -/
def ENXIO : Int := 6

/-- The errno value `EFAULT` of `errno.h` (Linux). -/
def EFAULT : Int := 14

/-- The errno value `EEXIST` of `errno.h` (Linux). -/
def EEXIST : Int := 17

/-! ## Data model -/

/-- The playback state of `deadbeef.h`; `DDB_PLAYBACK_STATE_STOPPED` is the value 0, which
is what the zero-initialised `con.state` holds at start. -/
inductive ddb_playback_state_t
  | DDB_PLAYBACK_STATE_STOPPED
  | DDB_PLAYBACK_STATE_PLAYING
  | DDB_PLAYBACK_STATE_PAUSED
  deriving DecidableEq, Repr

open ddb_playback_state_t

/-- The wave format descriptor `ddb_waveformat_t` (all counts are C `int`s). -/
structure ddb_waveformat_t where
  bps : Int
  channels : Int
  samplerate : Int
  is_float : Bool
  channelmask : Nat
  is_bigendian : Bool
  deriving DecidableEq, Repr

/-- The connector `con` together with the format `plugin.fmt` that `con.fmt` points to.
`jack` is the client handle (`none` is `NULL`), `ports` the flexible array of port
handles.  The API pointer `db` is not state of the model: its calls are `Event`s. -/
structure ddb_jack_connector where
  jack : Option Nat
  connected : Bool
  clean : Bool
  fulfill : Bool
  fmt : ddb_waveformat_t
  state : ddb_playback_state_t
  ports : Nat → Option Nat

/-- The initialiser `.fmt` of `plugin`: 32 bits, float, 2 channels, front left and front
right (speaker bits 1 and 2), little endian; `samplerate` is zero-initialised. -/
def plugin_fmt : ddb_waveformat_t :=
  { bps := 32, channels := 2, samplerate := 0, is_float := true, channelmask := 3,
    is_bigendian := false }

/-- The static initialiser of `con`. -/
def con_initial : ddb_jack_connector :=
  { jack := none, connected := false, clean := true, fulfill := true, fmt := plugin_fmt,
    state := DDB_PLAYBACK_STATE_STOPPED, ports := fun _ => none }

/-- A call that leaves the plugin: into the DeaDBeeF API (`con.db->...`), into libc
(`usleep`) or into the JACK library (`jack_...`). -/
inductive Event
  | conf_get_int
  | log
  | log_detailed
  | streamer_reset (flush : Bool)
  | streamer_read (size : Int)
  | volume_get_amp
  | usleep (usec : Nat)
  | jack_client_open
  | jack_client_close (client : Nat)
  | jack_get_sample_rate
  | jack_set_process_callback
  | jack_set_sample_rate_callback
  | jack_on_shutdown
  | jack_port_register (i : Nat)
  | jack_activate
  | jack_get_ports
  | jack_port_name (i : Nat)
  | jack_connect (i : Nat)
  | jack_free
  | jack_port_get_buffer (ch : Nat) (nframes : Nat)
  deriving DecidableEq, Repr

/-- Whether the call goes to the JACK library. -/
def Event.isJack : Event → Bool
  | .conf_get_int => false
  | .log => false
  | .log_detailed => false
  | .streamer_reset _ => false
  | .streamer_read _ => false
  | .volume_get_amp => false
  | .usleep _ => false
  | _ => true

/-- Whether the call is `jack_client_close`. -/
def Event.isClose : Event → Bool
  | .jack_client_close _ => true
  | _ => false

/-- Whether the call is `streamer_read`. -/
def Event.isRead : Event → Bool
  | .streamer_read _ => true
  | _ => false

/-- What an operation leaves behind: its return value, the connector and its calls. -/
structure Outcome where
  ret : Int
  con : ddb_jack_connector
  trace : List Event

/-! ## Playback state operations and teardown -/

/-- The function `ddb_playback_state`. -/
def ddb_playback_state (con : ddb_jack_connector) : ddb_playback_state_t := con.state

/-- The function `ddb_playback_pause`. -/
def ddb_playback_pause (con : ddb_jack_connector) : Outcome :=
  if con.state ≠ DDB_PLAYBACK_STATE_STOPPED then
    ⟨0, { con with state := DDB_PLAYBACK_STATE_PAUSED }, []⟩
  else
    ⟨0, con, []⟩

/-- The function `ddb_playback_stop`. -/
def ddb_playback_stop (con : ddb_jack_connector) : Outcome :=
  ⟨0, { con with state := DDB_PLAYBACK_STATE_STOPPED }, [Event.streamer_reset true]⟩

/-- The function `ddb_jack_close`; `closeRet` is what `jack_client_close` answers. -/
def ddb_jack_close (closeRet : Int) (disconnect : Bool) (con : ddb_jack_connector) : Outcome :=
  if con.connected then
    let stopped := ddb_playback_stop { con with connected := false }
    let t := stopped.trace ++ [Event.usleep 100]
    match stopped.con.jack with
    | some client =>
      if disconnect then
        if closeRet ≠ 0 then
          ⟨closeRet, stopped.con, t ++ [Event.jack_client_close client, Event.log]⟩
        else
          ⟨closeRet, stopped.con, t ++ [Event.jack_client_close client]⟩
      else
        ⟨0, stopped.con, t⟩
    | none => ⟨0, stopped.con, t⟩
  else
    ⟨0, con, []⟩

/-- The function `ddb_jack_free`. -/
def ddb_jack_free (closeRet : Int) (con : ddb_jack_connector) : Outcome :=
  ddb_jack_close closeRet true con

/-- The function `jack_shutdown_cb`. -/
def jack_shutdown_cb (con : ddb_jack_connector) : Outcome :=
  let r := ddb_jack_close 0 false con
  ⟨r.ret, r.con, Event.log :: r.trace⟩

/-- The function `jack_rate_cb`.  Its C parameter list is `(void *_)`: the frame count the
server passes (`nframes`) is not read, the rate is asked from the server instead
(`server_rate` is what `jack_get_sample_rate` answers). -/
def jack_rate_cb (nframes : Nat) (server_rate : Nat) (con : ddb_jack_connector) : Outcome :=
  let _unused := nframes
  if con.connected then
    ⟨0, { con with fmt := { con.fmt with samplerate := toInt32 server_rate } },
      [Event.jack_get_sample_rate]⟩
  else
    ⟨ EIO, con, []⟩

/-! ## Connecting: `ddb_jack_init` -/

/-- What the outside answers during one run of `ddb_jack_init`: the value of the
configuration key `jack.fulfill`, the client handle and the status word written by
`jack_client_open`, the server's sample rate, the return values of the two callback
registrations, the port handle (`none` is `NULL`) that `jack_port_register` returns for
port `i`, the return value of `jack_activate`, whether `jack_get_ports` returns a list,
the return value of `jack_connect` for port `i`, and that of `jack_client_close`. -/
structure InitWorld where
  conf_fulfill : Int
  client : Option Nat
  status : Nat
  sample_rate : Nat
  process_cb : Int
  rate_cb : Int
  port : Nat → Option Nat
  activate : Int
  playback_ports : Bool
  connect : Nat → Int
  close : Int

/-- The port registration loop of `ddb_jack_init`, with `todo` iterations left from index
`i`.  The flag is false when a registration returned `NULL`, which ends the loop. -/
def register_ports (w : InitWorld) :
    Nat → Nat → ddb_jack_connector → Bool × ddb_jack_connector × List Event
  | 0, _, con => (true, con, [])
  | todo + 1, i, con =>
    match w.port i with
    | none =>
      (false, { con with ports := Function.update con.ports i none },
        [Event.jack_port_register i, Event.log])
    | some p =>
      let r := register_ports w todo (i + 1)
        { con with ports := Function.update con.ports i (some p) }
      (r.1, r.2.1, Event.jack_port_register i :: r.2.2)

/-- The port connection loop of `ddb_jack_init` up to its `break`, with `todo` iterations
left from index `i`.  The flag is false when a `jack_connect` returned a value other than
0 and `EEXIST`; the calls of that iteration up to the log are in the trace, the
`ddb_jack_close` that follows the log is made by the caller. -/
def connect_ports (w : InitWorld) : Nat → Nat → Bool × List Event
  | 0, _ => (true, [])
  | todo + 1, i =>
    if w.connect i ≠ 0 ∧ w.connect i ≠ EEXIST then
      (false, [Event.jack_port_name i, Event.jack_connect i, Event.jack_port_name i,
        Event.log])
    else
      let r := connect_ports w todo (i + 1)
      (r.1, Event.jack_port_name i :: Event.jack_connect i :: r.2)

/-- Lines 208 to 212 of `ddb_jack_init`: the clean flag is set, the mitigation flag is read
from the configuration and the handle is taken from `jack_client_open`. -/
def init_open (w : InitWorld) (con : ddb_jack_connector) : ddb_jack_connector :=
  { con with clean := true, fulfill := decide (w.conf_fulfill ≠ 0), jack := w.client }

/-- Line 219 of `ddb_jack_init`: the sample rate of the server is stored in the format. -/
def init_samplerate (w : InitWorld) (con : ddb_jack_connector) : ddb_jack_connector :=
  { con with fmt := { con.fmt with samplerate := toInt32 w.sample_rate } }

/-- The function `ddb_jack_init`. -/
def ddb_jack_init (w : InitWorld) (con : ddb_jack_connector) : Outcome :=
  let con1 := init_open w con
  let t1 := [Event.conf_get_int, Event.jack_client_open]
  if w.status ≠ 0 then
    let r := ddb_jack_close w.close false con1
    ⟨ ENXIO, r.con, t1 ++ [Event.log] ++ r.trace⟩
  else
    let con2 := init_samplerate w con1
    let t2 := t1 ++ [Event.jack_get_sample_rate, Event.jack_set_process_callback]
    if w.process_cb ≠ 0 then
      let r := ddb_jack_close w.close true con2
      ⟨ EFAULT, r.con, t2 ++ [Event.log] ++ r.trace⟩
    else
      let t3 := t2 ++ [Event.jack_set_sample_rate_callback]
      if w.rate_cb ≠ 0 then
        let r := ddb_jack_close w.close true con2
        ⟨ EFAULT, r.con, t3 ++ [Event.log] ++ r.trace⟩
      else
        let reg := register_ports w con2.fmt.channels.toNat 0 con2
        let t4 := t3 ++ [Event.jack_on_shutdown] ++ reg.2.2
        if reg.1 = false then
          let r := ddb_jack_close w.close true reg.2.1
          ⟨ EIO, r.con, t4 ++ r.trace⟩
        else
          let con3 := reg.2.1
          let t5 := t4 ++ [Event.jack_activate]
          if w.activate ≠ 0 then
            let r := ddb_jack_close w.close true con3
            ⟨ EIO, r.con, t5 ++ [Event.log] ++ r.trace⟩
          else
            let t6 := t5 ++ [Event.jack_get_ports]
            if w.playback_ports = false then
              ⟨ ENXIO, con3, t6 ++ [Event.log]⟩
            else
              let cn := connect_ports w con3.fmt.channels.toNat 0
              if cn.1 = false then
                let r := ddb_jack_close w.close true con3
                ⟨ EIO, r.con, t6 ++ cn.2 ++ r.trace ++ [Event.jack_free]⟩
              else
                ⟨0, { con3 with connected := true }, t6 ++ cn.2 ++ [Event.jack_free]⟩

/-- The function `ddb_jack_setformat`; `fmt` is the format the host asks for. -/
def ddb_jack_setformat (w : InitWorld) (fmt : ddb_waveformat_t) (con : ddb_jack_connector) :
    Outcome :=
  if con.connected = false then
    let r := ddb_jack_init w con
    if r.ret = 0 then
      if r.con.fmt.samplerate ≠ fmt.samplerate then
        ⟨r.ret, r.con, r.trace ++ [Event.log_detailed]⟩
      else
        r
    else
      r
  else
    ⟨0, con, []⟩

/-- The function `ddb_playback_play`. -/
def ddb_playback_play (w : InitWorld) (con : ddb_jack_connector) : Outcome :=
  if con.connected = false then
    let r := ddb_jack_init w con
    if r.ret ≠ 0 then
      ⟨ EIO, r.con, r.trace⟩
    else
      ⟨0, { r.con with state := DDB_PLAYBACK_STATE_PLAYING }, r.trace⟩
  else
    ⟨0, { con with state := DDB_PLAYBACK_STATE_PLAYING }, []⟩

/-- The entry `.init` of `plugin`. -/
def plugin_init := ddb_jack_init

/-- The entry `.play` of `plugin`. -/
def plugin_play := ddb_playback_play

/-- The entry `.unpause` of `plugin`: the same function as `.play`. -/
def plugin_unpause := ddb_playback_play

/-! ## The process callback `jack_proc_cb` -/

/-- What `streamer_read` answers: `EOF`, or the bytes it stored at the destination, whose
number it returns. -/
inductive ReadResult
  | eof
  | bytes (data : List Nat)
  deriving DecidableEq, Repr

/-- The C `float`: `load` is the float held by four consecutive bytes of memory (the read
through `(float *) buf`), `mul` the float product, `zero` the float that the int 0 converts
to. -/
structure SampleOps (F : Type) where
  load : Nat → Nat → Nat → Nat → F
  mul : F → F → F
  zero : F

/-- What the outside answers during one run of `jack_proc_cb`: `streamer_read k size` is
the answer to the call number `k` (from 0) of this period when asked for `size` bytes,
`volume_amp` is what `volume_get_amp` returns, `stack` the bytes found in the
uninitialised array `buf`. -/
structure ProcWorld (F : Type) where
  streamer_read : Nat → Int → ReadResult
  volume_amp : F
  stack : Nat → Nat

/-- One store through a port buffer pointer: sample `val` at position `pos` of the buffer
of port `ch`. -/
structure PortWrite (F : Type) where
  ch : Nat
  pos : Nat
  val : F

/-- What one run of `jack_proc_cb` leaves behind. -/
structure ProcOutcome (F : Type) where
  ret : Int
  con : ddb_jack_connector
  trace : List Event
  writes : List (PortWrite F)

/-- The array `buf` after `data` was stored from byte offset `off`. -/
def store (buf : Nat → Nat) (off : Nat) (data : List Nat) : Nat → Nat :=
  fun i => if off ≤ i ∧ i < off + data.length then data.getD (i - off) 0 else buf i

/-- The element `((float *) buf)[idx]`. -/
def floatAt {F : Type} (ops : SampleOps F) (buf : Nat → Nat) (idx : Nat) : F :=
  ops.load (buf (4 * idx)) (buf (4 * idx + 1)) (buf (4 * idx + 2)) (buf (4 * idx + 3))

/-- The value `bufsize` of `jack_proc_cb`: `(int) inframes * channels * (bps / 8)`. -/
def bufsize (fmt : ddb_waveformat_t) (inframes : Nat) : Int :=
  toInt32 (toInt32 (toInt32 inframes * fmt.channels) * Int.tdiv fmt.bps 8)

/-- The value `outframes` of `jack_proc_cb`: `inbytes * 8 / (channels * bps)` in `int`,
converted to `jack_nframes_t`. -/
def outframes (fmt : ddb_waveformat_t) (inbytes : Int) : Nat :=
  toUInt32 (Int.tdiv (toInt32 (inbytes * 8)) (toInt32 (fmt.channels * fmt.bps)))

/-- The mitigation loop `while (con.fulfill && inbytes < bufsize)` of `jack_proc_cb`, run for
at most `fuel` iterations; `k` numbers the next `streamer_read`.  The result is `none` when
the loop condition still holds after `fuel` iterations, else the final `inbytes` and `buf`
and the calls made. -/
def fulfill_loop (read : Nat → Int → ReadResult) (fulfill : Bool) (size : Int) :
    Nat → Nat → Int → (Nat → Nat) → Option (Int × (Nat → Nat) × List Event)
  | 0, _, inbytes, buf =>
    if fulfill = true ∧ inbytes < size then none else some (inbytes, buf, [])
  | fuel + 1, k, inbytes, buf =>
    if fulfill = true ∧ inbytes < size then
      match read k (size - inbytes) with
      | .eof =>
        (fulfill_loop read fulfill size fuel (k + 1) inbytes buf).map
          fun r => (r.1, r.2.1, Event.streamer_read (size - inbytes) :: r.2.2)
      | .bytes data =>
        (fulfill_loop read fulfill size fuel (k + 1) (toInt32 (inbytes + data.length))
            (store buf inbytes.toNat data)).map
          fun r => (r.1, r.2.1, Event.streamer_read (size - inbytes) :: r.2.2)
    else some (inbytes, buf, [])

/-- The calls `jack_port_get_buffer (con.ports[ch], nframes)` for `ch` from 0 below
`channels`. -/
def get_buffers (channels : Int) (nframes : Nat) : List Event :=
  (List.range channels.toNat).map fun ch => Event.jack_port_get_buffer ch nframes

/-- The conversion loops of the playing branch: frame by frame, channel by channel, the
float at index `channels * frame + ch` (computed in `jack_nframes_t`) times `vol` is stored
at the next position of the buffer of port `ch`. -/
def convert {F : Type} (ops : SampleOps F) (channels : Int) (nframes : Nat) (buf : Nat → Nat)
    (vol : F) : List (PortWrite F) :=
  (List.range nframes).flatMap fun frame =>
    (List.range channels.toNat).map fun ch =>
      ⟨ch, frame, ops.mul (floatAt ops buf (toUInt32 (channels * frame + ch))) vol⟩

/-- The loops of the default branch: zero at every position below `nframes` of the buffer
of every port. -/
def silence {F : Type} (ops : SampleOps F) (channels : Int) (nframes : Nat) :
    List (PortWrite F) :=
  (List.range nframes).flatMap fun frame =>
    (List.range channels.toNat).map fun ch => ⟨ch, frame, ops.zero⟩

/-- The function `jack_proc_cb`; `none` when the mitigation loop is still running after
`fuel` iterations. -/
def jack_proc_cb {F : Type} (ops : SampleOps F) (w : ProcWorld F) (fuel : Nat)
    (inframes : Nat) (con : ddb_jack_connector) : Option (ProcOutcome F) :=
  if con.connected then
    match con.state with
    | DDB_PLAYBACK_STATE_PLAYING =>
      let size := bufsize con.fmt inframes
      match w.streamer_read 0 size with
      | .eof =>
        some ⟨0, { con with state := DDB_PLAYBACK_STATE_STOPPED, clean := false },
          [Event.streamer_read size], []⟩
      | .bytes data =>
        match fulfill_loop w.streamer_read con.fulfill size fuel 1 data.length
            (store w.stack 0 data) with
        | none => none
        | some (inbytes, buf, reads) =>
          let n := outframes con.fmt inbytes
          some ⟨0, { con with clean := false },
            Event.streamer_read size :: reads ++ get_buffers con.fmt.channels n ++
              [Event.volume_get_amp],
            convert ops con.fmt.channels n buf w.volume_amp⟩
    | _ =>
      if con.clean = false then
        some ⟨0, { con with clean := true }, get_buffers con.fmt.channels inframes,
          silence ops con.fmt.channels inframes⟩
      else
        some ⟨0, con, [], []⟩
  else
    some ⟨ EIO, con, [], []⟩

/-! ## Reachable states -/

/-- The connectors the plugin can be in: `con_initial`, and what any host operation (the
entries of `plugin`) or server callback leaves, whatever the outside answers. -/
inductive Reachable : ddb_jack_connector → Prop
  | initial : Reachable con_initial
  | init (w : InitWorld) {con : ddb_jack_connector} :
      Reachable con → Reachable (ddb_jack_init w con).con
  | setformat (w : InitWorld) (fmt : ddb_waveformat_t) {con : ddb_jack_connector} :
      Reachable con → Reachable (ddb_jack_setformat w fmt con).con
  | play (w : InitWorld) {con : ddb_jack_connector} :
      Reachable con → Reachable (plugin_play w con).con
  | unpause (w : InitWorld) {con : ddb_jack_connector} :
      Reachable con → Reachable (plugin_unpause w con).con
  | pause {con : ddb_jack_connector} :
      Reachable con → Reachable (ddb_playback_pause con).con
  | stop {con : ddb_jack_connector} :
      Reachable con → Reachable (ddb_playback_stop con).con
  | free (closeRet : Int) {con : ddb_jack_connector} :
      Reachable con → Reachable (ddb_jack_free closeRet con).con
  | process {F : Type} (ops : SampleOps F) (w : ProcWorld F) (fuel inframes : Nat)
      {con : ddb_jack_connector} (r : ProcOutcome F) :
      Reachable con → jack_proc_cb ops w fuel inframes con = some r → Reachable r.con
  | rate (nframes server_rate : Nat) {con : ddb_jack_connector} :
      Reachable con → Reachable (jack_rate_cb nframes server_rate con).con
  | shutdown {con : ddb_jack_connector} :
      Reachable con → Reachable (jack_shutdown_cb con).con

/-! ## Predicates, concrete connectors and worlds of the statements -/

/-- Playback is stopped whenever the connector is not connected. -/
def StoppedWhenDisconnected (con : ddb_jack_connector) : Prop :=
  con.connected = false → con.state = DDB_PLAYBACK_STATE_STOPPED

/-- An `InitWorld` in which every call succeeds: status 0, handle 7, port handles `i + 1`,
a list of playback ports, every `jack_connect` returning 0. -/
def world_ok : InitWorld :=
  { conf_fulfill := 1, client := some 7, status := 0, sample_rate := 48000, process_cb := 0,
    rate_cb := 0, port := fun i => some (i + 1), activate := 0, playback_ports := true,
    connect := fun _ => 0, close := 0 }

/-- No `jack_client_close` among the calls `t`. -/
def NoClose (t : List Event) : Prop := ∀ e ∈ t, e.isClose = false

/-- The world of the failing input of C2: the server opens client 7 with status 0 and then
refuses the process callback. -/
def world_process_cb_fails : InitWorld := { world_ok with process_cb := 1 }

/-- The connector after a first successful connect from the initial state. -/
def con_connected : ddb_jack_connector := (ddb_jack_init world_ok con_initial).con

/-- The stores of the two nested loops of `jack_proc_cb` (frames outside, channels inside)
when the value stored for frame `f` and channel `ch` is `g f ch`. -/
def rows {F : Type} (m n : Nat) (g : Nat → Nat → F) : List (PortWrite F) :=
  (List.range n).flatMap fun f => (List.range m).map fun ch => ⟨ch, f, g f ch⟩

/-- A sample model for concrete runs: samples are integers, four bytes are read little
endian, the product is the integer product. -/
def ops_int : SampleOps Int :=
  { load := fun b0 b1 b2 b3 => b0 + 256 * b1 + 65536 * b2 + 16777216 * b3,
    mul := fun x y => x * y, zero := 0 }

/-- The connector `con_connected` after `play`. -/
def con_playing : ddb_jack_connector :=
  { con_connected with state := DDB_PLAYBACK_STATE_PLAYING }

/-- A streamer that delivers the eight bytes of one stereo frame (samples 1 and 2) on
every read, with volume 3. -/
def world_one_frame : ProcWorld Int :=
  { streamer_read := fun _ _ => ReadResult.bytes [1, 0, 0, 0, 2, 0, 0, 0],
    volume_amp := 3, stack := fun _ => 0 }

/-- Consecutive runs of `jack_proc_cb`, one for each period of `periods` (the world and the
frame count of the period); the outcome of every period, in order. -/
def proc_run {F : Type} (ops : SampleOps F) (fuel : Nat) :
    List (ProcWorld F × Nat) → ddb_jack_connector → Option (List (ProcOutcome F))
  | [], _ => some []
  | p :: ps, con =>
    match jack_proc_cb ops p.1 fuel p.2 con with
    | none => none
    | some r => (proc_run ops fuel ps r.con).map fun rs => r :: rs

/-- The connector `con_playing` after a Playing callback and `pause`. -/
def con_paused_dirty : ddb_jack_connector :=
  { con_playing with clean := false, state := DDB_PLAYBACK_STATE_PAUSED }

/-- A streamer at end of stream. -/
def world_eof : ProcWorld Int :=
  { streamer_read := fun _ _ => ReadResult.eof, volume_amp := 1, stack := fun _ => 0 }

/-- The connector left by the failed connect of C2: disconnected, holding handle 7. -/
def con_leaked : ddb_jack_connector := (ddb_jack_init world_process_cb_fails con_initial).con

/-- The condition of C12 for a connect with `channels` ports: the open reports status 0,
both callback registrations return 0, every port registration returns a port, the
activation returns 0, a list of physical playback ports is returned and every port
connection returns 0 or `EEXIST`. -/
def AllStepsSucceed (w : InitWorld) (channels : Nat) : Prop :=
  w.status = 0 ∧ w.process_cb = 0 ∧ w.rate_cb = 0 ∧
  (∀ i, i < channels → (w.port i).isSome = true) ∧ w.activate = 0 ∧
  w.playback_ports = true ∧
  (∀ i, i < channels → (w.connect i = 0 ∨ w.connect i = EEXIST))

/-- A streamer that never stores more bytes than it is asked for. -/
def WithinRequest (read : Nat → Int → ReadResult) : Prop :=
  ∀ k size data, read k size = ReadResult.bytes data → (data.length : Int) ≤ size

/-- A streamer that delivers at most four bytes per read and never more than it is asked
for, with an `EOF` on its second read; volume 3. -/
def world_two_halves : ProcWorld Int :=
  { streamer_read := fun k size =>
      if k = 1 ∨ size < 0 then ReadResult.eof
      else ReadResult.bytes (List.replicate (min 4 size.toNat) 7),
    volume_amp := 3, stack := fun _ => 0 }

/-- A streamer that delivers four bytes on the first read of a period and `EOF` on every
further read. -/
def world_starved : ProcWorld Int :=
  { streamer_read := fun k _ =>
      if k = 0 then ReadResult.bytes [1, 0, 0, 0] else ReadResult.eof,
    volume_amp := 1, stack := fun _ => 0 }

/-- Two format descriptors that differ at most in `samplerate`. -/
def SameLayout (a b : ddb_waveformat_t) : Prop :=
  a.bps = b.bps ∧ a.channels = b.channels ∧ a.is_float = b.is_float ∧
  a.channelmask = b.channelmask ∧ a.is_bigendian = b.is_bigendian

/-- A format request for 16-bit integer mono at 44100 Hz. -/
def fmt_request : ddb_waveformat_t :=
  { bps := 16, channels := 1, samplerate := 44100, is_float := false, channelmask := 1,
    is_bigendian := false }

/-- The format of the plugin with 16-bit samples. -/
def fmt_16bit : ddb_waveformat_t := { plugin_fmt with bps := 16 }

/-! ## Lemmas on teardown and connecting -/

theorem close_of_disconnected (closeRet : Int) (disconnect : Bool) (con : ddb_jack_connector)
    (h : con.connected = false) : ddb_jack_close closeRet disconnect con = ⟨0, con, []⟩ := by
  simp [ddb_jack_close, h]

theorem close_con_of_connected (closeRet : Int) (disconnect : Bool) (con : ddb_jack_connector)
    (h : con.connected = true) :
    (ddb_jack_close closeRet disconnect con).con =
      { con with connected := false, state := DDB_PLAYBACK_STATE_STOPPED } := by
  unfold ddb_jack_close
  simp only [h, if_true, ddb_playback_stop]
  cases con.jack <;> cases disconnect <;> simp
  split <;> rfl

theorem close_stoppedWhenDisconnected (closeRet : Int) (disconnect : Bool)
    (con : ddb_jack_connector) (h : StoppedWhenDisconnected con) :
    StoppedWhenDisconnected (ddb_jack_close closeRet disconnect con).con := by
  cases hc : con.connected
  · rw [close_of_disconnected _ _ _ hc]; exact h
  · rw [close_con_of_connected _ _ _ hc]; intro _; rfl

theorem register_ports_frame (w : InitWorld) (todo i : Nat) (con : ddb_jack_connector) :
    (register_ports w todo i con).2.1.connected = con.connected ∧
    (register_ports w todo i con).2.1.state = con.state ∧
    (register_ports w todo i con).2.1.fmt = con.fmt ∧
    (register_ports w todo i con).2.1.jack = con.jack ∧
    (register_ports w todo i con).2.1.clean = con.clean ∧
    (register_ports w todo i con).2.1.fulfill = con.fulfill := by
  induction todo generalizing i con with
  | zero => simp [register_ports]
  | succ n ih =>
    unfold register_ports
    cases hp : w.port i with
    | none => simp
    | some p => simpa using ih (i + 1) _

/-- How `ddb_jack_init` ends: with 0 and connected, playback state untouched; or with an
error, `connected` and the playback state untouched; or with an error after the teardown
of a connector that was connected, which leaves it disconnected and stopped. -/
theorem init_state_cases (w : InitWorld) (con : ddb_jack_connector) :
    ((ddb_jack_init w con).ret = 0 ∧ (ddb_jack_init w con).con.connected = true ∧
      (ddb_jack_init w con).con.state = con.state) ∨
    ((ddb_jack_init w con).ret ≠ 0 ∧ (ddb_jack_init w con).con.connected = con.connected ∧
      (ddb_jack_init w con).con.state = con.state) ∨
    ((ddb_jack_init w con).ret ≠ 0 ∧ con.connected = true ∧
      (ddb_jack_init w con).con.connected = false ∧
      (ddb_jack_init w con).con.state = DDB_PLAYBACK_STATE_STOPPED) := by
  obtain ⟨r1, r2, -, -, -, -⟩ := register_ports_frame w
    (init_samplerate w (init_open w con)).fmt.channels.toNat 0
    (init_samplerate w (init_open w con))
  have e1 : (init_open w con).connected = con.connected := rfl
  have e2 : (init_samplerate w (init_open w con)).connected = con.connected := rfl
  have s1 : (init_open w con).state = con.state := rfl
  have s2 : (init_samplerate w (init_open w con)).state = con.state := rfl
  rw [e2] at r1
  rw [s2] at r2
  generalize hr : ddb_jack_init w con = r
  unfold ddb_jack_init at hr
  simp only [] at hr
  cases hc : con.connected
  · rw [hc] at e1 e2 r1
    split_ifs at hr <;> subst hr <;>
      simp [close_of_disconnected, e1, e2, s1, s2, r1, r2, EIO, ENXIO, EFAULT]
  · rw [hc] at e1 e2 r1
    split_ifs at hr <;> subst hr <;>
      simp [close_con_of_connected, e1, e2, s1, s2, r1, r2, EIO, ENXIO, EFAULT]

theorem proc_cb_state {F : Type} (ops : SampleOps F) (w : ProcWorld F) (fuel inframes : Nat)
    (con : ddb_jack_connector) (r : ProcOutcome F)
    (h : jack_proc_cb ops w fuel inframes con = some r) :
    r.con.connected = con.connected ∧ r.con.fmt = con.fmt ∧ r.con.jack = con.jack ∧
    r.con.fulfill = con.fulfill ∧
    (r.con.state = con.state ∨ r.con.state = DDB_PLAYBACK_STATE_STOPPED) := by
  unfold jack_proc_cb at h
  by_cases hc : con.connected = true
  · rw [if_pos hc] at h
    split at h
    · simp only [] at h
      split at h
      · cases h; simp
      · split at h
        · cases h
        · cases h; simp
    · by_cases hcl : con.clean = false
      · rw [if_pos hcl] at h; cases h; simp
      · rw [if_neg hcl] at h; cases h; simp
  · rw [if_neg hc] at h; cases h; simp

theorem init_stoppedWhenDisconnected (w : InitWorld) (con : ddb_jack_connector)
    (h : StoppedWhenDisconnected con) : StoppedWhenDisconnected (ddb_jack_init w con).con := by
  intro hd
  rcases init_state_cases w con with ⟨-, h1, -⟩ | ⟨-, h1, h2⟩ | ⟨-, -, -, h2⟩
  · rw [h1] at hd; cases hd
  · rw [h2]; exact h (h1 ▸ hd)
  · exact h2

theorem setformat_con (w : InitWorld) (fmt : ddb_waveformat_t) (con : ddb_jack_connector) :
    (ddb_jack_setformat w fmt con).con =
      if con.connected = false then (ddb_jack_init w con).con else con := by
  unfold ddb_jack_setformat
  by_cases hc : con.connected = false
  · rw [if_pos hc, if_pos hc]
    simp only []
    split_ifs <;> rfl
  · rw [if_neg hc, if_neg hc]

theorem play_stoppedWhenDisconnected (w : InitWorld) (con : ddb_jack_connector)
    (h : StoppedWhenDisconnected con) :
    StoppedWhenDisconnected (ddb_playback_play w con).con := by
  unfold ddb_playback_play
  cases hc : con.connected
  · rcases init_state_cases w con with ⟨h0, h1, -⟩ | ⟨h0, h1, h2⟩ | ⟨-, h3, -, -⟩
    · intro hd; simp [h0, h1] at hd
    · intro _; simp [h0, h2]; exact h hc
    · rw [hc] at h3; cases h3
  · intro hd; simp at hd

theorem stoppedWhenDisconnected_of_reachable {con : ddb_jack_connector} (h : Reachable con) :
    StoppedWhenDisconnected con := by
  induction h with
  | initial => intro _; rfl
  | init w _ ih => exact init_stoppedWhenDisconnected w _ ih
  | @setformat w fmt con _ ih =>
    rw [setformat_con]
    split_ifs
    · exact init_stoppedWhenDisconnected w _ ih
    · exact ih
  | play w _ ih => exact play_stoppedWhenDisconnected w _ ih
  | unpause w _ ih => exact play_stoppedWhenDisconnected w _ ih
  | @pause con _ ih =>
    intro hd
    unfold ddb_playback_pause at hd ⊢
    split_ifs at hd ⊢ with hs
    · exact absurd (ih hd) hs
    · exact ih hd
  | stop _ ih => intro _; rfl
  | free closeRet _ ih => exact close_stoppedWhenDisconnected _ _ _ ih
  | process ops w fuel inframes r _ hr ih =>
    obtain ⟨h1, -, -, -, h2⟩ := proc_cb_state ops w fuel inframes _ r hr
    intro hd
    rcases h2 with h2 | h2
    · rw [h2]; exact ih (h1 ▸ hd)
    · exact h2
  | @rate nframes server_rate con _ ih =>
    intro hd
    unfold jack_rate_cb at hd ⊢
    cases hc : con.connected <;> simp [hc] at hd ⊢
    exact ih hc
  | shutdown _ ih => exact close_stoppedWhenDisconnected _ _ _ ih

/-! ## C1: play and unpause -/

/-- C1: in every reachable state, `play` and `unpause` (the same function) behave as
follows.  When connected: no call at all is made (in particular no connect), the state
becomes Playing, 0 is returned and nothing else changes.  When disconnected and
`ddb_jack_init` returns 0: 0 is returned, the state is Playing and the connector is
connected.  When disconnected and `ddb_jack_init` fails: `EIO` is returned and the state
afterwards is Stopped.  Hence the state afterwards is Playing iff 0 is returned. -/
theorem play_unpause_contract {con : ddb_jack_connector} (hreach : Reachable con)
    (w : InitWorld) :
    plugin_unpause = plugin_play ∧
    (con.connected = true →
      plugin_play w con = ⟨0, { con with state := DDB_PLAYBACK_STATE_PLAYING }, []⟩) ∧
    (con.connected = false → (ddb_jack_init w con).ret = 0 →
      (plugin_play w con).ret = 0 ∧
      (plugin_play w con).con.state = DDB_PLAYBACK_STATE_PLAYING ∧
      (plugin_play w con).con.connected = true) ∧
    (con.connected = false → (ddb_jack_init w con).ret ≠ 0 →
      (plugin_play w con).ret = EIO ∧
      (plugin_play w con).con.state = DDB_PLAYBACK_STATE_STOPPED ∧
      (plugin_play w con).con.connected = false) ∧
    ((plugin_play w con).con.state = DDB_PLAYBACK_STATE_PLAYING ↔
      (plugin_play w con).ret = 0) := by
  have hinv := stoppedWhenDisconnected_of_reachable hreach
  have key : con.connected = false → (ddb_jack_init w con).ret ≠ 0 →
      (plugin_play w con).ret = EIO ∧
      (plugin_play w con).con.state = DDB_PLAYBACK_STATE_STOPPED ∧
      (plugin_play w con).con.connected = false := by
    intro hc hf
    have hst := init_stoppedWhenDisconnected w con hinv
    rcases init_state_cases w con with ⟨h0, -, -⟩ | ⟨-, h1, -⟩ | ⟨-, h3, -, -⟩
    · exact absurd h0 hf
    · rw [hc] at h1
      simp [plugin_play, ddb_playback_play, hc, hf, h1, hst h1]
    · rw [hc] at h3; cases h3
  have ok : con.connected = false → (ddb_jack_init w con).ret = 0 →
      (plugin_play w con).ret = 0 ∧
      (plugin_play w con).con.state = DDB_PLAYBACK_STATE_PLAYING ∧
      (plugin_play w con).con.connected = true := by
    intro hc h0
    rcases init_state_cases w con with ⟨-, h1, -⟩ | ⟨hf, -, -⟩ | ⟨hf, -, -, -⟩
    · simp [plugin_play, ddb_playback_play, hc, h0, h1]
    · exact absurd h0 hf
    · exact absurd h0 hf
  refine ⟨rfl, ?_, ok, key, ?_⟩
  · intro hc
    simp [plugin_play, ddb_playback_play, hc]
  · cases hc : con.connected
    · by_cases h0 : (ddb_jack_init w con).ret = 0
      · obtain ⟨a, b, -⟩ := ok hc h0
        simp [a, b]
      · obtain ⟨a, b, -⟩ := key hc h0
        simp [a, b, EIO]
    · simp [plugin_play, ddb_playback_play, hc]

/-- The contract of C1 at the initial state, with a server that refuses the client
(status 1): `play` returns `EIO` and the state stays Stopped. -/
theorem play_unpause_contract_witness :
    Reachable con_initial ∧
    (plugin_play { world_ok with status := 1, client := none } con_initial).ret = EIO ∧
    (plugin_play { world_ok with status := 1, client := none } con_initial).con.state =
      DDB_PLAYBACK_STATE_STOPPED :=
  ⟨Reachable.initial,
    ((play_unpause_contract Reachable.initial
      { world_ok with status := 1, client := none }).2.2.2.1 rfl (by decide)).1,
    ((play_unpause_contract Reachable.initial
      { world_ok with status := 1, client := none }).2.2.2.1 rfl (by decide)).2.1⟩

/-! ## C2: rollback of a failed connect -/

theorem register_ports_noClose (w : InitWorld) (todo i : Nat) (con : ddb_jack_connector) :
    ∀ e ∈ (register_ports w todo i con).2.2, e.isClose = false := by
  induction todo generalizing i con with
  | zero => simp [register_ports]
  | succ n ih =>
    unfold register_ports
    cases hp : w.port i with
    | none => simp [Event.isClose]
    | some p =>
      intro e he
      simp only [List.mem_cons] at he
      rcases he with rfl | he
      · rfl
      · exact ih _ _ e he

theorem connect_ports_noClose (w : InitWorld) (todo i : Nat) :
    ∀ e ∈ (connect_ports w todo i).2, e.isClose = false := by
  induction todo generalizing i with
  | zero => simp [connect_ports]
  | succ n ih =>
    unfold connect_ports
    split_ifs
    · simp [Event.isClose]
    · intro e he
      simp only [List.mem_cons] at he
      rcases he with rfl | rfl | he
      · rfl
      · rfl
      · exact ih _ e he

theorem noClose_nil : NoClose [] := by simp [NoClose]

theorem noClose_cons (e : Event) (t : List Event) :
    NoClose (e :: t) ↔ e.isClose = false ∧ NoClose t := by simp [NoClose]

theorem noClose_append (s t : List Event) : NoClose (s ++ t) ↔ NoClose s ∧ NoClose t := by
  simp only [NoClose, List.mem_append]
  constructor
  · intro h; exact ⟨fun e he => h e (Or.inl he), fun e he => h e (Or.inr he)⟩
  · rintro ⟨h1, h2⟩ e (he | he)
    · exact h1 e he
    · exact h2 e he

/-- A connect started from a disconnected connector makes no `jack_client_close` and
leaves the handle of `jack_client_open` in `con.jack`. -/
theorem init_noClose_of_disconnected (w : InitWorld) (con : ddb_jack_connector)
    (hc : con.connected = false) :
    NoClose (ddb_jack_init w con).trace ∧ (ddb_jack_init w con).con.jack = w.client := by
  obtain ⟨r1, -, -, r4, -, -⟩ := register_ports_frame w
    (init_samplerate w (init_open w con)).fmt.channels.toNat 0
    (init_samplerate w (init_open w con))
  have e1 : (init_open w con).connected = false := hc
  have e2 : (init_samplerate w (init_open w con)).connected = false := hc
  have j1 : (init_open w con).jack = w.client := rfl
  have j2 : (init_samplerate w (init_open w con)).jack = w.client := rfl
  rw [e2] at r1
  rw [j2] at r4
  have hreg : NoClose _ := register_ports_noClose w
    (init_samplerate w (init_open w con)).fmt.channels.toNat 0
    (init_samplerate w (init_open w con))
  have hcn : ∀ n, NoClose (connect_ports w n 0).2 := fun n => connect_ports_noClose w n 0
  generalize hr : ddb_jack_init w con = r
  unfold ddb_jack_init at hr
  simp only [] at hr
  split_ifs at hr <;> subst hr <;>
    simp only [close_of_disconnected, e1, e2, j1, j2, r1, r4, noClose_append, noClose_cons,
      noClose_nil, hreg, hcn, and_self, and_true, true_and, List.append_nil] <;>
    simp [Event.isClose]

/-- C2 (the code differs): a connect started from a disconnected connector never calls
`jack_client_close`, whatever fails, and the handle of `jack_client_open` stays in
`con.jack`; the `ddb_jack_close (true)` of each failure path returns at once because
`con.connected` is still false.  At the failing input (client 7 opened, process callback
refused) the calls are exactly the five listed, `EFAULT` is returned, the connector is
disconnected and still holds handle 7. -/
theorem init_rollback_keeps_handle :
    (∀ (w : InitWorld) (con : ddb_jack_connector),
      (∀ e ∈ (ddb_jack_init w { con with connected := false }).trace, e.isClose = false) ∧
      (ddb_jack_init w { con with connected := false }).con.jack = w.client) ∧
    (ddb_jack_init world_process_cb_fails con_initial).ret = EFAULT ∧
    (ddb_jack_init world_process_cb_fails con_initial).con.connected = false ∧
    (ddb_jack_init world_process_cb_fails con_initial).con.jack = some 7 ∧
    (ddb_jack_init world_process_cb_fails con_initial).trace =
      [Event.conf_get_int, Event.jack_client_open, Event.jack_get_sample_rate,
        Event.jack_set_process_callback, Event.log] := by
  refine ⟨fun w con => ?_, by decide, by decide, by decide, by decide⟩
  exact init_noClose_of_disconnected w _ rfl

/-! ## C3: connecting while connected -/

/-- C3 (as stated, refuted): `con_connected` is connected and holds handle 7; `plugin.init`
run on it with a server that hands out client 8 calls `jack_client_open` and
`jack_port_register` again and replaces the handle by 8; run with a server that refuses
the client it returns `ENXIO` and leaves the connector disconnected. -/
theorem init_while_connected_reconnects :
    con_connected.connected = true ∧ con_connected.jack = some 7 ∧
    (plugin_init { world_ok with client := some 8 } con_connected).trace =
      [Event.conf_get_int, Event.jack_client_open, Event.jack_get_sample_rate,
        Event.jack_set_process_callback, Event.jack_set_sample_rate_callback,
        Event.jack_on_shutdown, Event.jack_port_register 0, Event.jack_port_register 1,
        Event.jack_activate, Event.jack_get_ports, Event.jack_port_name 0,
        Event.jack_connect 0, Event.jack_port_name 1, Event.jack_connect 1,
        Event.jack_free] ∧
    (plugin_init { world_ok with client := some 8 } con_connected).con.jack = some 8 ∧
    (plugin_init { world_ok with client := none, status := 1 } con_connected).ret = ENXIO ∧
    (plugin_init { world_ok with client := none, status := 1 } con_connected).con.connected
      = false := by
  refine ⟨by decide, by decide, by decide, by decide, by decide, by decide⟩

theorem close_frame (closeRet : Int) (disconnect : Bool) (con : ddb_jack_connector) :
    (ddb_jack_close closeRet disconnect con).con.clean = con.clean ∧
    (ddb_jack_close closeRet disconnect con).con.fulfill = con.fulfill ∧
    (ddb_jack_close closeRet disconnect con).con.fmt = con.fmt ∧
    (ddb_jack_close closeRet disconnect con).con.jack = con.jack ∧
    (ddb_jack_close closeRet disconnect con).con.ports = con.ports := by
  cases hc : con.connected
  · rw [close_of_disconnected _ _ _ hc]; simp
  · rw [close_con_of_connected _ _ _ hc]; simp

/-- Every run of `ddb_jack_init` starts with the configuration read and
`jack_client_open`, and ends with the clean flag set. -/
theorem init_always_opens (w : InitWorld) (con : ddb_jack_connector) :
    (∃ t, (ddb_jack_init w con).trace = Event.conf_get_int :: Event.jack_client_open :: t) ∧
    (ddb_jack_init w con).con.clean = true := by
  obtain ⟨-, -, -, -, r5, -⟩ := register_ports_frame w
    (init_samplerate w (init_open w con)).fmt.channels.toNat 0
    (init_samplerate w (init_open w con))
  have c1 : (init_open w con).clean = true := rfl
  have c2 : (init_samplerate w (init_open w con)).clean = true := rfl
  rw [c2] at r5
  generalize hr : ddb_jack_init w con = r
  unfold ddb_jack_init at hr
  simp only [] at hr
  split_ifs at hr <;> subst hr <;>
    simp [(close_frame _ _ _).1, c1, c2, r5]

/-- C3 (amended): the guard against connecting twice is in the callers.  With
`connected` true, `setformat`, `play` and `unpause` do not run `ddb_jack_init` and make no
call at all; `setformat` returns 0 with the connector unchanged, `play` and `unpause`
return 0 and change the playback state only.  `ddb_jack_init` itself has no such guard:
in every state it starts with the configuration read and `jack_client_open` and sets the
clean flag. -/
theorem connect_guarded_by_callers (con : ddb_jack_connector) (hc : con.connected = true)
    (w : InitWorld) (fmt : ddb_waveformat_t) :
    ddb_jack_setformat w fmt con = ⟨0, con, []⟩ ∧
    plugin_play w con = ⟨0, { con with state := DDB_PLAYBACK_STATE_PLAYING }, []⟩ ∧
    plugin_unpause w con = ⟨0, { con with state := DDB_PLAYBACK_STATE_PLAYING }, []⟩ ∧
    (∃ t, (plugin_init w con).trace = Event.conf_get_int :: Event.jack_client_open :: t) ∧
    (plugin_init w con).con.clean = true := by
  refine ⟨?_, ?_, ?_, init_always_opens w con⟩ <;>
    simp [ddb_jack_setformat, plugin_play, plugin_unpause, ddb_playback_play, hc]

/-- The amended C3 at `con_connected` with the format of the plugin. -/
theorem connect_guarded_by_callers_witness :
    con_connected.connected = true ∧
    ddb_jack_setformat world_ok plugin_fmt con_connected = ⟨0, con_connected, []⟩ :=
  ⟨by decide, (connect_guarded_by_callers con_connected (by decide) world_ok plugin_fmt).1⟩

/-! ## C5: the frame count -/

theorem toInt32_of_range (x : Int) (h1 : -2147483648 ≤ x) (h2 : x < 2147483648) :
    toInt32 x = x := by
  unfold toInt32; omega

theorem toUInt32_of_range (x : Int) (h1 : 0 ≤ x) (h2 : x < 4294967296) :
    toUInt32 x = x.toNat := by
  unfold toUInt32; rw [Int.emod_eq_of_lt h1 h2]

/-- The frame count for a whole number `q` of frames of stride `channels * k` bytes, the
sample being `8 * k` bits wide. -/
theorem outframes_of_frames (fmt : ddb_waveformat_t) (k q : Int) (hch : 0 < fmt.channels)
    (hk : 0 < k) (hbps : fmt.bps = 8 * k) (hq : 0 ≤ q)
    (h8 : fmt.channels * k * q * 8 < 2147483648) :
    outframes fmt (fmt.channels * k * q) = q.toNat := by
  have hs : 0 < fmt.channels * k := Int.mul_pos hch hk
  unfold outframes
  rcases hq.eq_or_lt with h0 | hpos
  · rw [← h0]
    simp [toInt32, toUInt32]
  · have hq1 : 1 ≤ q := hpos
    have hle : fmt.channels * k ≤ fmt.channels * k * q := by nlinarith
    have hden : fmt.channels * fmt.bps = 8 * (fmt.channels * k) := by rw [hbps]; ring
    have hnum : fmt.channels * k * q * 8 = 8 * (fmt.channels * k) * q := by ring
    have hqle : q ≤ fmt.channels * k * q := by nlinarith
    rw [toInt32_of_range _ (by nlinarith) h8, hden,
      toInt32_of_range _ (by nlinarith) (by nlinarith), hnum,
      Int.tdiv_eq_ediv (by nlinarith) (by nlinarith),
      Int.mul_ediv_cancel_left _ (by nlinarith : (8 * (fmt.channels * k) : Int) ≠ 0)]
    exact toUInt32_of_range _ hq (by nlinarith)

/-- C5: for a format with `channels > 0` and `bps` a positive multiple of 8, and a byte
count `byteCount ≥ 0` that is a multiple of the frame stride `channels * (bps / 8)` with
`byteCount * 8` representable as a 32-bit signed int, the frame count that the callback
computes (`inbytes * 8 / (channels * bps)` in `int`, stored in a `jack_nframes_t`) is
`byteCount / frameStride`; and when `byteCount` is the full request of a period of `n`
frames, `n * channels * (bps / 8)`, the callback's `bufsize` is that request and the frame
count is `n`. -/
theorem frame_count (fmt : ddb_waveformat_t) (byteCount : Int) (hch : 0 < fmt.channels)
    (hbps : 0 < fmt.bps) (h8 : 8 ∣ fmt.bps) (h0 : 0 ≤ byteCount)
    (hdvd : fmt.channels * Int.tdiv fmt.bps 8 ∣ byteCount)
    (hrep : byteCount * 8 < 2147483648) :
    (outframes fmt byteCount : Int) = byteCount / (fmt.channels * Int.tdiv fmt.bps 8) ∧
    ∀ n : Nat, byteCount = n * fmt.channels * Int.tdiv fmt.bps 8 →
      bufsize fmt n = byteCount ∧ outframes fmt byteCount = n := by
  obtain ⟨k, hk⟩ := h8
  have hkpos : 0 < k := by omega
  have htd : Int.tdiv fmt.bps 8 = k := by
    rw [hk, Int.tdiv_eq_ediv (by omega) (by omega)]; omega
  rw [htd] at hdvd ⊢
  have hs : 0 < fmt.channels * k := Int.mul_pos hch hkpos
  obtain ⟨q, hq⟩ := hdvd
  have hq0 : 0 ≤ q := by
    by_contra hneg
    have : fmt.channels * k * q < 0 := Int.mul_neg_of_pos_of_neg hs (by omega)
    omega
  have hof := outframes_of_frames fmt k q hch hkpos hk hq0 (by rw [← hq]; exact hrep)
  rw [← hq] at hof
  constructor
  · rw [hof, hq, Int.mul_ediv_cancel_left _ (ne_of_gt hs), Int.toNat_of_nonneg hq0]
  · intro n hn
    have hnq : (n : Int) = q := by
      have : fmt.channels * k * (n : Int) = fmt.channels * k * q := by rw [← hq, hn]; ring
      exact Int.eq_of_mul_eq_mul_left (ne_of_gt hs) this
    refine ⟨?_, by rw [hof, ← hnq]; simp⟩
    have hn0 : (0 : Int) ≤ n := Int.ofNat_nonneg n
    have h1 : (n : Int) ≤ n * fmt.channels := by nlinarith
    have h2 : (n : Int) * fmt.channels ≤ n * fmt.channels * k := by nlinarith
    unfold bufsize
    have e1 : toInt32 (n : Int) = n := toInt32_of_range _ (by omega) (by omega)
    have e2 : toInt32 ((n : Int) * fmt.channels) = n * fmt.channels :=
      toInt32_of_range _ (by nlinarith) (by omega)
    have e3 : toInt32 ((n : Int) * fmt.channels * k) = n * fmt.channels * k :=
      toInt32_of_range _ (by nlinarith) (by omega)
    rw [htd, e1, e2, e3, hn]

/-- C5 at the plugin's format: 4096 bytes of 32-bit stereo are 512 frames. -/
theorem frame_count_witness :
    (outframes plugin_fmt 4096 : Int) = 4096 / (plugin_fmt.channels * Int.tdiv plugin_fmt.bps 8) ∧
    ∀ n : Nat, (4096 : Int) = n * plugin_fmt.channels * Int.tdiv plugin_fmt.bps 8 →
      bufsize plugin_fmt n = 4096 ∧ outframes plugin_fmt 4096 = n :=
  frame_count plugin_fmt 4096 (by decide) (by decide) (by decide) (by decide) (by decide)
    (by decide)

/-! ## C4: de-interleaving with volume -/

theorem filter_row {F : Type} (m c f : Nat) (g : Nat → F) :
    ((List.range m).map fun ch => (⟨ch, f, g ch⟩ : PortWrite F)).filter
        (fun wr => decide (wr.ch = c)) =
      if c < m then [⟨c, f, g c⟩] else [] := by
  induction m with
  | zero => simp
  | succ m ih =>
    rw [List.range_succ, List.map_append, List.filter_append, ih]
    by_cases h1 : c < m
    · have h2 : ¬ m = c := by omega
      have h3 : c < m + 1 := by omega
      simp [h1, h2, h3]
    · by_cases h2 : m = c
      · subst h2; simp
      · have h3 : ¬ c < m + 1 := by omega
        simp [h1, h2, h3]

/-- The stores that go to port `c`, in order: one per frame, at position `f`. -/
theorem rows_filter {F : Type} (m n c : Nat) (hc : c < m) (g : Nat → Nat → F) :
    (rows m n g).filter (fun wr => decide (wr.ch = c)) =
      (List.range n).map fun f => ⟨c, f, g f c⟩ := by
  unfold rows
  rw [List.filter_flatMap]
  simp only [filter_row, hc, if_true]
  induction (List.range n) with
  | nil => rfl
  | cons a l ih => simp [List.flatMap_cons, ih]

theorem rows_mem {F : Type} (m n : Nat) (g : Nat → Nat → F) :
    ∀ wr ∈ rows m n g, wr.ch < m ∧ wr.pos < n := by
  intro wr hwr
  simp only [rows, List.mem_flatMap, List.mem_map, List.mem_range] at hwr
  obtain ⟨f, hf, ch, hch, rfl⟩ := hwr
  exact ⟨hch, hf⟩

theorem rows_congr {F : Type} (m n : Nat) (g g2 : Nat → Nat → F)
    (h : ∀ f ch, f < n → ch < m → g f ch = g2 f ch) : rows m n g = rows m n g2 := by
  unfold rows
  have : ∀ L : List Nat, (∀ f ∈ L, f < n) →
      (L.flatMap fun f => (List.range m).map fun ch => (⟨ch, f, g f ch⟩ : PortWrite F)) =
      (L.flatMap fun f => (List.range m).map fun ch => (⟨ch, f, g2 f ch⟩ : PortWrite F)) := by
    intro L
    induction L with
    | nil => intro _; rfl
    | cons a l ih =>
      intro hl
      rw [List.flatMap_cons, List.flatMap_cons, ih (fun f hf => hl f (List.mem_cons_of_mem _ hf))]
      congr 1
      apply List.map_congr_left
      intro ch hch
      rw [h a ch (hl a (List.mem_cons_self _ _)) (List.mem_range.mp hch)]
  exact this _ (fun f hf => List.mem_range.mp hf)

theorem convert_eq_rows {F : Type} (ops : SampleOps F) (channels : Int) (n : Nat)
    (buf : Nat → Nat) (vol : F) :
    convert ops channels n buf vol =
      rows channels.toNat n fun f ch => ops.mul (floatAt ops buf (toUInt32 (channels * f + ch))) vol :=
  rfl

theorem silence_eq_rows {F : Type} (ops : SampleOps F) (channels : Int) (n : Nat) :
    silence ops channels n = rows channels.toNat n fun _ _ => ops.zero :=
  rfl

/-- The frame count for 32-bit samples when neither `inbytes * 8` nor `channels * bps`
overflows. -/
theorem outframes_float (fmt : ddb_waveformat_t) (inbytes : Int) (hb : fmt.bps = 32)
    (hch : 0 < fmt.channels) (hchb : fmt.channels * 32 < 2147483648) (h0 : 0 ≤ inbytes)
    (h8 : inbytes * 8 < 2147483648) :
    outframes fmt inbytes = (inbytes / (4 * fmt.channels)).toNat := by
  unfold outframes
  rw [hb, toInt32_of_range _ (by omega) h8, toInt32_of_range _ (by omega) hchb,
    Int.tdiv_eq_ediv (by omega) (by omega)]
  have e : inbytes * 8 / (fmt.channels * 32) = inbytes / (4 * fmt.channels) := by
    have h1 : inbytes * 8 = 8 * inbytes := by ring
    have h2 : fmt.channels * 32 = 8 * (4 * fmt.channels) := by ring
    rw [h1, h2, Int.mul_ediv_mul_of_pos _ _ (by omega : (0 : Int) < 8)]
  rw [e]
  have hq0 : 0 ≤ inbytes / (4 * fmt.channels) := Int.ediv_nonneg h0 (by omega)
  have hq1 : inbytes / (4 * fmt.channels) ≤ inbytes :=
    Int.ediv_le_self _ h0
  exact toUInt32_of_range _ hq0 (by omega)

/-! ### The branches of `jack_proc_cb` -/

theorem proc_cb_disconnected {F : Type} (ops : SampleOps F) (w : ProcWorld F)
    (fuel inframes : Nat) (con : ddb_jack_connector) (hc : con.connected = false) :
    jack_proc_cb ops w fuel inframes con = some ⟨ EIO, con, [], []⟩ := by
  simp [jack_proc_cb, hc]

theorem proc_cb_eof {F : Type} (ops : SampleOps F) (w : ProcWorld F)
    (fuel inframes : Nat) (con : ddb_jack_connector) (hc : con.connected = true)
    (hs : con.state = DDB_PLAYBACK_STATE_PLAYING)
    (hread : w.streamer_read 0 (bufsize con.fmt inframes) = ReadResult.eof) :
    jack_proc_cb ops w fuel inframes con =
      some ⟨0, { con with state := DDB_PLAYBACK_STATE_STOPPED, clean := false },
        [Event.streamer_read (bufsize con.fmt inframes)], []⟩ := by
  simp [jack_proc_cb, hc, hs, hread]

theorem proc_cb_bytes {F : Type} (ops : SampleOps F) (w : ProcWorld F)
    (fuel inframes : Nat) (con : ddb_jack_connector) (hc : con.connected = true)
    (hs : con.state = DDB_PLAYBACK_STATE_PLAYING) (data : List Nat)
    (hread : w.streamer_read 0 (bufsize con.fmt inframes) = ReadResult.bytes data)
    (inbytes : Int) (buf : Nat → Nat) (reads : List Event)
    (hloop : fulfill_loop w.streamer_read con.fulfill (bufsize con.fmt inframes) fuel 1
      data.length (store w.stack 0 data) = some (inbytes, buf, reads)) :
    jack_proc_cb ops w fuel inframes con =
      some ⟨0, { con with clean := false },
        Event.streamer_read (bufsize con.fmt inframes) :: reads ++
          get_buffers con.fmt.channels (outframes con.fmt inbytes) ++ [Event.volume_get_amp],
        convert ops con.fmt.channels (outframes con.fmt inbytes) buf w.volume_amp⟩ := by
  simp [jack_proc_cb, hc, hs, hread, hloop]

theorem proc_cb_dirty {F : Type} (ops : SampleOps F) (w : ProcWorld F)
    (fuel inframes : Nat) (con : ddb_jack_connector) (hc : con.connected = true)
    (hs : con.state ≠ DDB_PLAYBACK_STATE_PLAYING) (hcl : con.clean = false) :
    jack_proc_cb ops w fuel inframes con =
      some ⟨0, { con with clean := true }, get_buffers con.fmt.channels inframes,
        silence ops con.fmt.channels inframes⟩ := by
  unfold jack_proc_cb
  rw [if_pos hc]
  split
  · rename_i h; exact absurd h hs
  · rw [if_pos hcl]

theorem proc_cb_clean {F : Type} (ops : SampleOps F) (w : ProcWorld F)
    (fuel inframes : Nat) (con : ddb_jack_connector) (hc : con.connected = true)
    (hs : con.state ≠ DDB_PLAYBACK_STATE_PLAYING) (hcl : con.clean = true) :
    jack_proc_cb ops w fuel inframes con = some ⟨0, con, [], []⟩ := by
  unfold jack_proc_cb
  rw [if_pos hc]
  split
  · rename_i h; exact absurd h hs
  · rw [if_neg (by simp [hcl])]

/-- The mitigation loop does not run when it is switched off or the buffer is full. -/
theorem fulfill_loop_done (read : Nat → Int → ReadResult) (fulfill : Bool) (size : Int)
    (fuel k : Nat) (inbytes : Int) (buf : Nat → Nat)
    (h : fulfill = false ∨ size ≤ inbytes) :
    fulfill_loop read fulfill size fuel k inbytes buf = some (inbytes, buf, []) := by
  have hcond : ¬ (fulfill = true ∧ inbytes < size) := by
    rintro ⟨h1, h2⟩
    rcases h with h | h
    · rw [h] at h1; cases h1
    · omega
  cases fuel <;> simp [fulfill_loop, hcond]

/-- The float index of frame `f` and channel `c` does not wrap. -/
theorem index_no_wrap (channels inbytes : Int) (f c : Nat) (hch : 0 < channels)
    (h0 : 0 ≤ inbytes) (h8 : inbytes * 8 < 2147483648)
    (hf : f < (inbytes / (4 * channels)).toNat) (hc : c < channels.toNat) :
    toUInt32 (channels * f + c) = channels.toNat * f + c ∧
    4 * ((channels.toNat * f + c : Nat) + 1 : Int) ≤ inbytes := by
  have hq0 : 0 ≤ inbytes / (4 * channels) := Int.ediv_nonneg h0 (by omega)
  have hmul : 4 * channels * (inbytes / (4 * channels)) ≤ inbytes :=
    Int.mul_ediv_self_le (by omega)
  have hf2 : (f : Int) + 1 ≤ inbytes / (4 * channels) := by omega
  have hc2 : (c : Int) + 1 ≤ channels := by omega
  have hf0 : (0 : Int) ≤ f := Int.ofNat_nonneg f
  have hc0 : (0 : Int) ≤ c := Int.ofNat_nonneg c
  have hle : channels * ((f : Int) + 1) ≤ channels * (inbytes / (4 * channels)) :=
    Int.mul_le_mul_of_nonneg_left hf2 (by omega)
  have hidx : channels * (f : Int) + c + 1 ≤ channels * (inbytes / (4 * channels)) := by
    nlinarith
  have hcast : ((channels.toNat * f + c : Nat) : Int) = channels * f + c := by
    push_cast
    rw [Int.toNat_of_nonneg (by omega)]
  constructor
  · rw [toUInt32_of_range _ (by nlinarith) (by nlinarith), ← hcast]
    exact Int.toNat_ofNat _
  · rw [hcast]; nlinarith

theorem floatAt_store {F : Type} (ops : SampleOps F) (stack : Nat → Nat) (data : List Nat)
    (idx : Nat) (h : 4 * (idx + 1) ≤ data.length) :
    floatAt ops (store stack 0 data) idx =
      ops.load (data.getD (4 * idx) 0) (data.getD (4 * idx + 1) 0)
        (data.getD (4 * idx + 2) 0) (data.getD (4 * idx + 3) 0) := by
  have e : ∀ i, i < data.length → store stack 0 data i = data.getD i 0 := by
    intro i hi
    simp [store, hi]
  unfold floatAt
  rw [e _ (by omega), e _ (by omega), e _ (by omega), e _ (by omega)]

/-- The playing branch of the callback for 32-bit samples, once the reads of the period
have delivered `inbytes` bytes into `buf`. -/
theorem proc_cb_deinterleave {F : Type} (ops : SampleOps F) (w : ProcWorld F)
    (fuel n : Nat) (con : ddb_jack_connector) (data : List Nat) (inbytes : Int)
    (buf : Nat → Nat) (reads : List Event)
    (hc : con.connected = true) (hs : con.state = DDB_PLAYBACK_STATE_PLAYING)
    (hb : con.fmt.bps = 32) (hch : 0 < con.fmt.channels)
    (hchb : con.fmt.channels * 32 < 2147483648)
    (hread : w.streamer_read 0 (bufsize con.fmt n) = ReadResult.bytes data)
    (hloop : fulfill_loop w.streamer_read con.fulfill (bufsize con.fmt n) fuel 1
      data.length (store w.stack 0 data) = some (inbytes, buf, reads))
    (h0 : 0 ≤ inbytes) (h8 : inbytes * 8 < 2147483648) :
    ∃ r, jack_proc_cb ops w fuel n con = some r ∧ r.ret = 0 ∧
      r.con = { con with clean := false } ∧
      (∀ wr ∈ r.writes, wr.ch < con.fmt.channels.toNat ∧
        wr.pos < (inbytes / (4 * con.fmt.channels)).toNat) ∧
      ∀ c, c < con.fmt.channels.toNat →
        r.writes.filter (fun wr => decide (wr.ch = c)) =
          (List.range (inbytes / (4 * con.fmt.channels)).toNat).map fun f =>
            ⟨c, f, ops.mul (floatAt ops buf (con.fmt.channels.toNat * f + c)) w.volume_amp⟩ := by
  refine ⟨_, proc_cb_bytes ops w fuel n con hc hs data hread inbytes buf reads hloop, rfl, rfl,
    ?_, ?_⟩
  · simp only []
    rw [convert_eq_rows, outframes_float con.fmt inbytes hb hch hchb h0 h8]
    exact rows_mem _ _ _
  · intro c hcc
    simp only []
    rw [convert_eq_rows, outframes_float con.fmt inbytes hb hch hchb h0 h8,
      rows_congr _ _ _
        (fun f ch => ops.mul (floatAt ops buf (con.fmt.channels.toNat * f + ch)) w.volume_amp)
        (fun f ch hf hch2 => by
          rw [(index_no_wrap con.fmt.channels inbytes f ch hch h0 h8 hf hch2).1]),
      rows_filter _ _ _ hcc]

/-- C4: when the callback runs connected and Playing with 32-bit samples (and a channel
count that does not overflow `channels * bps`) and the reads of the period deliver
`inbytes` bytes (not end of stream; `inbytes * 8` representable) into `buf`, it returns 0,
changes the clean flag to false and nothing else, and the stores to the buffer of each
port `c` are exactly, in order, for every frame `f` below `inbytes / (4 * channels)`, the
float at interleaved index `channels * f + c` times the volume, at position `f`; every
store goes to a port below `channels` and a position below that frame count.  In
particular for a period of 512 frames, 2 channels, 4096 bytes delivered by the first read
and a volume that is neutral for the float product, every port buffer receives exactly
512 samples, the input samples themselves. -/
theorem deinterleave_with_volume :
    (∀ (F : Type) (ops : SampleOps F) (w : ProcWorld F) (fuel n : Nat)
      (con : ddb_jack_connector) (data : List Nat) (inbytes : Int) (buf : Nat → Nat)
      (reads : List Event),
      con.connected = true → con.state = DDB_PLAYBACK_STATE_PLAYING →
      con.fmt.bps = 32 → 0 < con.fmt.channels → con.fmt.channels * 32 < 2147483648 →
      w.streamer_read 0 (bufsize con.fmt n) = ReadResult.bytes data →
      fulfill_loop w.streamer_read con.fulfill (bufsize con.fmt n) fuel 1
        data.length (store w.stack 0 data) = some (inbytes, buf, reads) →
      0 ≤ inbytes → inbytes * 8 < 2147483648 →
      ∃ r, jack_proc_cb ops w fuel n con = some r ∧ r.ret = 0 ∧
        r.con = { con with clean := false } ∧
        (∀ wr ∈ r.writes, wr.ch < con.fmt.channels.toNat ∧
          wr.pos < (inbytes / (4 * con.fmt.channels)).toNat) ∧
        ∀ c, c < con.fmt.channels.toNat →
          r.writes.filter (fun wr => decide (wr.ch = c)) =
            (List.range (inbytes / (4 * con.fmt.channels)).toNat).map fun f =>
              ⟨c, f, ops.mul (floatAt ops buf (con.fmt.channels.toNat * f + c))
                w.volume_amp⟩) ∧
    (∀ (F : Type) (ops : SampleOps F) (w : ProcWorld F) (fuel : Nat)
      (con : ddb_jack_connector) (data : List Nat),
      con.connected = true → con.state = DDB_PLAYBACK_STATE_PLAYING →
      con.fmt.bps = 32 → con.fmt.channels = 2 →
      w.streamer_read 0 (bufsize con.fmt 512) = ReadResult.bytes data →
      data.length = 4096 → (∀ x, ops.mul x w.volume_amp = x) →
      ∃ r, jack_proc_cb ops w fuel 512 con = some r ∧ r.ret = 0 ∧
        r.con = { con with clean := false } ∧
        (∀ wr ∈ r.writes, wr.ch < 2 ∧ wr.pos < 512) ∧
        ∀ c, c < 2 →
          r.writes.filter (fun wr => decide (wr.ch = c)) =
            (List.range 512).map fun f =>
              ⟨c, f, ops.load (data.getD (4 * (2 * f + c)) 0)
                (data.getD (4 * (2 * f + c) + 1) 0) (data.getD (4 * (2 * f + c) + 2) 0)
                (data.getD (4 * (2 * f + c) + 3) 0)⟩) := by
  constructor
  · intro F ops w fuel n con data inbytes buf reads hc hs hb hch hchb hread hloop h0 h8
    exact proc_cb_deinterleave ops w fuel n con data inbytes buf reads hc hs hb hch hchb hread
      hloop h0 h8
  · intro F ops w fuel con data hc hs hb hch hread hlen hone
    have hsize : bufsize con.fmt 512 = 4096 := by
      simp only [bufsize, hb, hch]; decide
    have hloop := fulfill_loop_done w.streamer_read con.fulfill (bufsize con.fmt 512) fuel 1
      data.length (store w.stack 0 data) (Or.inr (by rw [hsize, hlen]; decide))
    obtain ⟨r, hr, hret, hcon, hmem, hval⟩ := proc_cb_deinterleave ops w fuel 512 con data
      data.length (store w.stack 0 data) [] hc hs hb (by rw [hch]; decide)
      (by rw [hch]; decide) hread hloop (by omega) (by rw [hlen]; decide)
    have hq : ((data.length : Int) / (4 * con.fmt.channels)).toNat = 512 := by
      rw [hlen, hch]; decide
    have h2 : con.fmt.channels.toNat = 2 := by rw [hch]; rfl
    rw [hq, h2] at hmem hval
    refine ⟨r, hr, hret, hcon, hmem, fun c hc2 => ?_⟩
    rw [hval c hc2]
    apply List.map_congr_left
    intro f hf
    have hf2 : f < 512 := List.mem_range.mp hf
    rw [hone, floatAt_store ops w.stack data (2 * f + c) (by omega)]

/-- The general part of C4 on a period of one frame, with a streamer that delivers one
stereo frame (eight bytes) and volume 3. -/
theorem deinterleave_with_volume_witness :
    ∃ r, jack_proc_cb ops_int world_one_frame 0 1 con_playing = some r ∧ r.ret = 0 ∧
      r.con = { con_playing with clean := false } ∧
      (∀ wr ∈ r.writes, wr.ch < con_playing.fmt.channels.toNat ∧
        wr.pos < ((8 : Int) / (4 * con_playing.fmt.channels)).toNat) ∧
      ∀ c, c < con_playing.fmt.channels.toNat →
        r.writes.filter (fun wr => decide (wr.ch = c)) =
          (List.range ((8 : Int) / (4 * con_playing.fmt.channels)).toNat).map fun f =>
            ⟨c, f, ops_int.mul
              (floatAt ops_int (store world_one_frame.stack 0 [1, 0, 0, 0, 2, 0, 0, 0])
                (con_playing.fmt.channels.toNat * f + c))
              world_one_frame.volume_amp⟩ :=
  deinterleave_with_volume.1 Int ops_int world_one_frame 0 1 con_playing
    [1, 0, 0, 0, 2, 0, 0, 0] 8 (store world_one_frame.stack 0 [1, 0, 0, 0, 2, 0, 0, 0]) []
    (by decide) (by decide) (by decide) (by decide) (by decide) rfl
    (fulfill_loop_done _ _ _ _ _ _ _ (Or.inr (by decide))) (by decide) (by decide)

/-! ## C6: the silence flush -/

theorem proc_run_clean {F : Type} (ops : SampleOps F) (fuel : Nat)
    (ps : List (ProcWorld F × Nat)) (con : ddb_jack_connector) (hc : con.connected = true)
    (hs : con.state ≠ DDB_PLAYBACK_STATE_PLAYING) (hcl : con.clean = true) :
    proc_run ops fuel ps con = some (ps.map fun _ => ⟨0, con, [], []⟩) := by
  induction ps with
  | nil => rfl
  | cons p ps ih =>
    simp only [proc_run, proc_cb_clean ops p.1 fuel p.2 con hc hs hcl, ih]
    rfl

/-- C6: a callback that runs connected and not Playing with the clean flag false returns
0, sets the clean flag and changes nothing else, and stores zero at the positions 0 to
`n - 1` of the buffer of each of the `channels` ports and nowhere else; with the clean
flag true it returns 0, makes no call, stores nothing and leaves the connector as it is.
A Playing callback that returns leaves the clean flag false, and so does a `pause` or a
`stop` after it, connected and not Playing.  Consequently, in a run of consecutive
not-Playing callbacks that starts with the clean flag false, the first period stores the
zeros and every later period stores nothing and makes no call. -/
theorem silence_flush {F : Type} (ops : SampleOps F) (fuel : Nat) (con : ddb_jack_connector)
    (hc : con.connected = true) :
    (∀ (w : ProcWorld F) (n : Nat) (r : ProcOutcome F),
      con.state = DDB_PLAYBACK_STATE_PLAYING → jack_proc_cb ops w fuel n con = some r →
      r.con.clean = false ∧ r.con.connected = true ∧
      ∀ next : ddb_jack_connector,
        next = (ddb_playback_pause r.con).con ∨ next = (ddb_playback_stop r.con).con ∨
          (next = r.con ∧ r.con.state ≠ DDB_PLAYBACK_STATE_PLAYING) →
        next.connected = true ∧ next.clean = false ∧
          next.state ≠ DDB_PLAYBACK_STATE_PLAYING) ∧
    (con.state ≠ DDB_PLAYBACK_STATE_PLAYING →
      (con.clean = false → ∀ (w : ProcWorld F) (n : Nat),
        ∃ r, jack_proc_cb ops w fuel n con = some r ∧ r.ret = 0 ∧
          r.con = { con with clean := true } ∧
          (∀ wr ∈ r.writes, wr.ch < con.fmt.channels.toNat ∧ wr.pos < n) ∧
          ∀ c, c < con.fmt.channels.toNat →
            r.writes.filter (fun wr => decide (wr.ch = c)) =
              (List.range n).map fun f => ⟨c, f, ops.zero⟩) ∧
      (con.clean = true → ∀ (w : ProcWorld F) (n : Nat),
        jack_proc_cb ops w fuel n con = some ⟨0, con, [], []⟩) ∧
      (con.clean = false → ∀ (p : ProcWorld F × Nat) (ps : List (ProcWorld F × Nat)),
        ∃ first rest, proc_run ops fuel (p :: ps) con = some (first :: rest) ∧
          first.writes = silence ops con.fmt.channels p.2 ∧
          rest.length = ps.length ∧
          ∀ r ∈ rest, r.writes = [] ∧ r.trace = [] ∧ r.con = first.con)) := by
  refine ⟨?_, fun hs => ⟨?_, ?_, ?_⟩⟩
  · intro w n r hs hr
    have key : r.con.clean = false ∧ r.con.connected = true := by
      cases hread : w.streamer_read 0 (bufsize con.fmt n) with
      | eof =>
        rw [proc_cb_eof ops w fuel n con hc hs hread] at hr
        cases hr
        exact ⟨rfl, hc⟩
      | bytes data =>
        cases hloop : fulfill_loop w.streamer_read con.fulfill (bufsize con.fmt n) fuel 1
            data.length (store w.stack 0 data) with
        | none => simp [jack_proc_cb, hc, hs, hread, hloop] at hr
        | some t =>
          obtain ⟨inbytes, buf, reads⟩ := t
          rw [proc_cb_bytes ops w fuel n con hc hs data hread inbytes buf reads hloop] at hr
          cases hr
          exact ⟨rfl, hc⟩
    refine ⟨key.1, key.2, ?_⟩
    rintro next (rfl | rfl | ⟨rfl, hns⟩)
    · unfold ddb_playback_pause
      split_ifs with hst
      · exact ⟨key.2, key.1, by simp⟩
      · refine ⟨key.2, key.1, ?_⟩
        rw [not_not] at hst
        rw [hst]; simp
    · exact ⟨key.2, key.1, by simp [ddb_playback_stop]⟩
    · exact ⟨key.2, key.1, hns⟩
  · intro hcl w n
    refine ⟨_, proc_cb_dirty ops w fuel n con hc hs hcl, rfl, rfl, ?_, ?_⟩
    · simp only []
      rw [silence_eq_rows]
      exact rows_mem _ _ _
    · intro c hcc
      simp only []
      rw [silence_eq_rows, rows_filter _ _ _ hcc]
  · intro hcl w n
    exact proc_cb_clean ops w fuel n con hc hs hcl
  · intro hcl p ps
    refine ⟨⟨0, { con with clean := true }, get_buffers con.fmt.channels p.2,
      silence ops con.fmt.channels p.2⟩,
      ps.map fun _ => ⟨0, { con with clean := true }, [], []⟩, ?_, rfl, by simp, ?_⟩
    · simp only [proc_run, proc_cb_dirty ops p.1 fuel p.2 con hc hs hcl]
      rw [proc_run_clean ops fuel ps { con with clean := true } hc hs rfl]
      rfl
    · intro r hr
      simp only [List.mem_map] at hr
      obtain ⟨_, _, rfl⟩ := hr
      exact ⟨rfl, rfl, rfl⟩

/-- C6 on `con_paused_dirty`: with the clean flag false, a callback for a period of 2
frames sets the clean flag. -/
theorem silence_flush_witness :
    con_paused_dirty.connected = true ∧
    con_paused_dirty.state ≠ DDB_PLAYBACK_STATE_PLAYING ∧ con_paused_dirty.clean = false ∧
    ∃ r, jack_proc_cb ops_int world_one_frame 0 2 con_paused_dirty = some r ∧ r.ret = 0 ∧
      r.con = { con_paused_dirty with clean := true } ∧
      (∀ wr ∈ r.writes, wr.ch < con_paused_dirty.fmt.channels.toNat ∧ wr.pos < 2) ∧
      ∀ c, c < con_paused_dirty.fmt.channels.toNat →
        r.writes.filter (fun wr => decide (wr.ch = c)) =
          (List.range 2).map fun f => ⟨c, f, ops_int.zero⟩ :=
  ⟨by decide, by decide, by decide,
    ((silence_flush ops_int 0 con_paused_dirty (by decide)).2 (by decide)).1 (by decide)
      world_one_frame 2⟩

/-! ## C7: end of stream -/

/-- C7: when the callback runs connected and Playing and the first `streamer_read` returns
`EOF`, then whatever the fuel the callback returns 0, the playback state is Stopped, the
connector stays connected, no port buffer is fetched or written, and the only call of the
period is that one read (no second read). -/
theorem end_of_stream {F : Type} (ops : SampleOps F) (w : ProcWorld F) (fuel n : Nat)
    (con : ddb_jack_connector) (hc : con.connected = true)
    (hs : con.state = DDB_PLAYBACK_STATE_PLAYING)
    (hread : w.streamer_read 0 (bufsize con.fmt n) = ReadResult.eof) :
    ∃ r, jack_proc_cb ops w fuel n con = some r ∧ r.ret = 0 ∧
      r.con.state = DDB_PLAYBACK_STATE_STOPPED ∧ r.con.connected = true ∧
      r.writes = [] ∧ r.trace = [Event.streamer_read (bufsize con.fmt n)] ∧
      r.con.jack = con.jack ∧ r.con.fmt = con.fmt ∧ r.con.fulfill = con.fulfill := by
  refine ⟨_, proc_cb_eof ops w fuel n con hc hs hread, rfl, rfl, hc, rfl, rfl, rfl, rfl, rfl⟩

/-- C7 on `con_playing` with a streamer at end of stream, period of 512 frames. -/
theorem end_of_stream_witness :
    ∃ r, jack_proc_cb ops_int world_eof 0 512 con_playing = some r ∧ r.ret = 0 ∧
      r.con.state = DDB_PLAYBACK_STATE_STOPPED ∧ r.con.connected = true ∧
      r.writes = [] ∧ r.trace = [Event.streamer_read (bufsize con_playing.fmt 512)] ∧
      r.con.jack = con_playing.jack ∧ r.con.fmt = con_playing.fmt ∧
      r.con.fulfill = con_playing.fulfill :=
  end_of_stream ops_int world_eof 0 512 con_playing (by decide) (by decide) rfl

/-! ## C8: server shutdown -/

theorem proc_run_disconnected {F : Type} (ops : SampleOps F) (fuel : Nat)
    (ps : List (ProcWorld F × Nat)) (con : ddb_jack_connector) (hc : con.connected = false) :
    proc_run ops fuel ps con = some (ps.map fun _ => ⟨ EIO, con, [], []⟩) := by
  induction ps with
  | nil => rfl
  | cons p ps ih =>
    simp only [proc_run, proc_cb_disconnected ops p.1 fuel p.2 con hc, ih]
    rfl

/-- C8: when `jack_shutdown_cb` runs on a connected connector, afterwards the playback
state is Stopped and `connected` is false, the streamer was asked to reset,
`jack_client_close` was not called (the calls are the log, the reset and the `usleep`) and
the handle is kept; every later callback in that state returns `EIO`, makes no call (no
read), stores nothing and leaves the connector as it is, also in a row. -/
theorem server_shutdown (con : ddb_jack_connector) (hc : con.connected = true) :
    (jack_shutdown_cb con).con.state = DDB_PLAYBACK_STATE_STOPPED ∧
    (jack_shutdown_cb con).con.connected = false ∧
    (jack_shutdown_cb con).con.jack = con.jack ∧
    (jack_shutdown_cb con).trace =
      [Event.log, Event.streamer_reset true, Event.usleep 100] ∧
    (∀ e ∈ (jack_shutdown_cb con).trace, e.isClose = false) ∧
    (∀ (F : Type) (ops : SampleOps F) (w : ProcWorld F) (fuel n : Nat),
      jack_proc_cb ops w fuel n (jack_shutdown_cb con).con =
        some ⟨ EIO, (jack_shutdown_cb con).con, [], []⟩) ∧
    (∀ (F : Type) (ops : SampleOps F) (fuel : Nat) (ps : List (ProcWorld F × Nat)),
      proc_run ops fuel ps (jack_shutdown_cb con).con =
        some (ps.map fun _ => ⟨ EIO, (jack_shutdown_cb con).con, [], []⟩)) := by
  have hcon : (jack_shutdown_cb con).con =
      { con with connected := false, state := DDB_PLAYBACK_STATE_STOPPED } :=
    close_con_of_connected 0 false con hc
  have htr : (jack_shutdown_cb con).trace =
      [Event.log, Event.streamer_reset true, Event.usleep 100] := by
    unfold jack_shutdown_cb ddb_jack_close
    simp only [hc, if_true, ddb_playback_stop]
    cases con.jack <;> simp
  have hd : (jack_shutdown_cb con).con.connected = false := by rw [hcon]
  refine ⟨by rw [hcon], hd, by rw [hcon], htr, ?_, ?_, ?_⟩
  · rw [htr]; decide
  · intro F ops w fuel n
    exact proc_cb_disconnected ops w fuel n _ hd
  · intro F ops fuel ps
    exact proc_run_disconnected ops fuel ps _ hd

/-- C8 on `con_playing` (connected and Playing). -/
theorem server_shutdown_witness :
    con_playing.connected = true ∧
    (jack_shutdown_cb con_playing).con.state = DDB_PLAYBACK_STATE_STOPPED ∧
    (jack_shutdown_cb con_playing).con.connected = false :=
  ⟨by decide, (server_shutdown con_playing (by decide)).1,
    (server_shutdown con_playing (by decide)).2.1⟩

/-! ## C9: teardown -/

/-- C9 (as stated, refuted): `con_leaked` is reachable, disconnected and holds the server
handle 7, yet `ddb_jack_close (true)` on it makes no call at all: the streamer is not
asked to reset and `jack_client_close` is not called. -/
theorem close_skips_when_disconnected :
    Reachable con_leaked ∧ con_leaked.connected = false ∧ con_leaked.jack = some 7 ∧
    (ddb_jack_close 0 true con_leaked).trace = [] ∧
    (ddb_jack_close 0 true con_leaked).con.jack = some 7 :=
  ⟨Reachable.init world_process_cb_fails Reachable.initial, by decide, by decide, by decide,
    by decide⟩

/-- C9 (amended): `ddb_jack_close` acts only on a connected connector.  Then, for both
values of the flag, it sets `connected` to false and the playback state to Stopped and
changes nothing else, and its first call is the reset of the streamer (with flush), so the
reset precedes every other call; with the flag true and a handle held,
`jack_client_close` is called on that handle, once; with the flag false or no handle held
it is not called.  On a disconnected connector it returns 0 at once, without any call and
without any change. -/
theorem close_contract (closeRet : Int) (disconnect : Bool) (con : ddb_jack_connector) :
    (con.connected = true →
      (ddb_jack_close closeRet disconnect con).con =
        { con with connected := false, state := DDB_PLAYBACK_STATE_STOPPED } ∧
      (∃ t, (ddb_jack_close closeRet disconnect con).trace =
          Event.streamer_reset true :: Event.usleep 100 :: t ∧
        ∀ e ∈ t, e ≠ Event.streamer_reset true) ∧
      (∀ client, con.jack = some client → disconnect = true →
        (ddb_jack_close closeRet disconnect con).trace.filter Event.isClose =
          [Event.jack_client_close client]) ∧
      (con.jack = none ∨ disconnect = false →
        (ddb_jack_close closeRet disconnect con).trace.filter Event.isClose = [])) ∧
    (con.connected = false → ddb_jack_close closeRet disconnect con = ⟨0, con, []⟩) := by
  refine ⟨fun hc => ⟨close_con_of_connected _ _ _ hc, ?_, ?_, ?_⟩,
    close_of_disconnected _ _ _⟩
  · unfold ddb_jack_close
    simp only [hc, if_true, ddb_playback_stop]
    cases con.jack <;> cases disconnect <;> simp
    split_ifs <;> simp
  · intro client hj hd
    unfold ddb_jack_close
    simp only [hc, if_true, ddb_playback_stop, hj, hd]
    split_ifs <;> simp [Event.isClose]
  · intro h
    unfold ddb_jack_close
    simp only [hc, if_true, ddb_playback_stop]
    rcases h with h | h
    · simp [h, Event.isClose]
    · cases con.jack <;> simp [h, Event.isClose]

/-- The amended C9 on `con_playing` (connected, handle 7) with the flag true. -/
theorem close_contract_witness :
    con_playing.connected = true ∧ con_playing.jack = some 7 ∧
    (ddb_jack_close 0 true con_playing).trace.filter Event.isClose =
      [Event.jack_client_close 7] :=
  ⟨by decide, by decide,
    ((close_contract 0 true con_playing).1 (by decide)).2.2.1 7 (by decide) rfl⟩

/-! ## C10: stop and pause -/

/-- C10: for every state, `stop` returns 0, sets the playback state to Stopped, leaves
every other field (`connected`, the clean flag, the format) unchanged and makes one call,
the reset of the streamer with flush; `pause` returns 0 and makes no call, sets the state
to Paused when it was Playing or Paused and leaves the whole connector unchanged when it
was Stopped; neither makes a call to the JACK library. -/
theorem stop_pause_table (con : ddb_jack_connector) :
    ddb_playback_stop con =
      ⟨0, { con with state := DDB_PLAYBACK_STATE_STOPPED }, [Event.streamer_reset true]⟩ ∧
    (ddb_playback_stop con).con.connected = con.connected ∧
    (ddb_playback_stop con).con.clean = con.clean ∧
    (ddb_playback_stop con).con.fmt = con.fmt ∧
    (con.state = DDB_PLAYBACK_STATE_PLAYING ∨ con.state = DDB_PLAYBACK_STATE_PAUSED →
      ddb_playback_pause con = ⟨0, { con with state := DDB_PLAYBACK_STATE_PAUSED }, []⟩) ∧
    (con.state = DDB_PLAYBACK_STATE_STOPPED → ddb_playback_pause con = ⟨0, con, []⟩) ∧
    (∀ e ∈ (ddb_playback_stop con).trace, e.isJack = false) ∧
    (∀ e ∈ (ddb_playback_pause con).trace, e.isJack = false) := by
  refine ⟨rfl, rfl, rfl, rfl, ?_, ?_, ?_, ?_⟩
  · intro h
    unfold ddb_playback_pause
    rcases h with h | h <;> simp [h]
  · intro h
    simp [ddb_playback_pause, h]
  · simp [ddb_playback_stop, Event.isJack]
  · unfold ddb_playback_pause
    split_ifs <;> simp

/-- C10 on `con_playing`: `pause` leads to Paused. -/
theorem stop_pause_table_witness :
    con_playing.state = DDB_PLAYBACK_STATE_PLAYING ∧
    ddb_playback_pause con_playing =
      ⟨0, { con_playing with state := DDB_PLAYBACK_STATE_PAUSED }, []⟩ :=
  ⟨by decide, (stop_pause_table con_playing).2.2.2.2.1 (Or.inl (by decide))⟩

/-! ## C11: the sample-rate notifier -/

/-- C11 (as stated, refuted): run on the connected `con_connected` with the argument 44100
while `jack_get_sample_rate` answers 48000, `jack_rate_cb` stores 48000, not its
argument. -/
theorem rate_cb_ignores_argument :
    con_connected.connected = true ∧
    (jack_rate_cb 44100 48000 con_connected).con.fmt.samplerate = 48000 ∧
    (jack_rate_cb 44100 48000 con_connected).con.fmt.samplerate ≠ 44100 := by
  refine ⟨by decide, by decide, by decide⟩

/-- C11 (amended): run connected, `jack_rate_cb` returns 0, makes one call,
`jack_get_sample_rate`, and stores its answer converted to `int` (the answer itself when
it is below 2^31) in `samplerate`, leaving every other field of the format and of the
connector unchanged, whatever argument it is called with; run disconnected it returns
`EIO`, makes no call and changes nothing. -/
theorem rate_cb_contract (nframes server_rate : Nat) (con : ddb_jack_connector) :
    (con.connected = true →
      jack_rate_cb nframes server_rate con =
        ⟨0, { con with fmt := { con.fmt with samplerate := toInt32 server_rate } },
          [Event.jack_get_sample_rate]⟩ ∧
      (server_rate < 2147483648 →
        (jack_rate_cb nframes server_rate con).con.fmt.samplerate = server_rate) ∧
      ∀ other : Nat, jack_rate_cb other server_rate con = jack_rate_cb nframes server_rate con) ∧
    (con.connected = false → jack_rate_cb nframes server_rate con = ⟨ EIO, con, []⟩) := by
  constructor
  · intro hc
    have e : ∀ m : Nat, jack_rate_cb m server_rate con =
        ⟨0, { con with fmt := { con.fmt with samplerate := toInt32 server_rate } },
          [Event.jack_get_sample_rate]⟩ := by
      intro m; simp [jack_rate_cb, hc]
    refine ⟨e nframes, ?_, fun other => by rw [e other, e nframes]⟩
    intro hlt
    rw [e nframes]
    exact toInt32_of_range _ (by omega) (by omega)
  · intro hc
    simp [jack_rate_cb, hc]

/-- The amended C11 on `con_connected` with a server rate of 48000. -/
theorem rate_cb_contract_witness :
    con_connected.connected = true ∧
    (jack_rate_cb 44100 48000 con_connected).con.fmt.samplerate = (48000 : Nat) :=
  ⟨by decide, ((rate_cb_contract 44100 48000 con_connected).1 (by decide)).2.1 (by decide)⟩

/-! ## C12: the result of a connect -/

theorem register_ports_flag (w : InitWorld) (todo i : Nat) (con : ddb_jack_connector) :
    (register_ports w todo i con).1 = true ↔ ∀ j, j < todo → (w.port (i + j)).isSome = true := by
  induction todo generalizing i con with
  | zero => simp [register_ports]
  | succ n ih =>
    unfold register_ports
    cases hp : w.port i with
    | none =>
      simp only [Bool.false_eq_true, false_iff, not_forall]
      exact ⟨0, by omega, by simp [hp]⟩
    | some p =>
      simp only [ih]
      constructor
      · intro h j hj
        cases j with
        | zero => simp [hp]
        | succ m =>
          have := h m (by omega)
          rwa [show i + (m + 1) = i + 1 + m by omega]
      · intro h j hj
        have := h (j + 1) (by omega)
        rwa [show i + (j + 1) = i + 1 + j by omega] at this

theorem connect_ports_flag (w : InitWorld) (todo i : Nat) :
    (connect_ports w todo i).1 = true ↔
      ∀ j, j < todo → (w.connect (i + j) = 0 ∨ w.connect (i + j) = EEXIST) := by
  induction todo generalizing i with
  | zero => simp [connect_ports]
  | succ n ih =>
    unfold connect_ports
    by_cases hbad : w.connect i ≠ 0 ∧ w.connect i ≠ EEXIST
    · rw [if_pos hbad]
      simp only [Bool.false_eq_true, false_iff, not_forall]
      refine ⟨0, by omega, ?_⟩
      simp only [Nat.add_zero]
      tauto
    · rw [if_neg hbad]
      simp only [ih]
      have hok : w.connect i = 0 ∨ w.connect i = EEXIST := by tauto
      constructor
      · intro h j hj
        cases j with
        | zero => simpa using hok
        | succ m =>
          have := h m (by omega)
          rwa [show i + (m + 1) = i + 1 + m by omega]
      · intro h j hj
        have := h (j + 1) (by omega)
        rwa [show i + (j + 1) = i + 1 + j by omega] at this

/-- A port connection is attempted only after every earlier one returned 0 or `EEXIST`. -/
theorem connect_ports_stops (w : InitWorld) (todo i j : Nat)
    (h : Event.jack_connect j ∈ (connect_ports w todo i).2) :
    i ≤ j ∧ j < i + todo ∧
      ∀ m, i ≤ m → m < j → (w.connect m = 0 ∨ w.connect m = EEXIST) := by
  induction todo generalizing i with
  | zero => simp [connect_ports] at h
  | succ n ih =>
    unfold connect_ports at h
    by_cases hbad : w.connect i ≠ 0 ∧ w.connect i ≠ EEXIST
    · rw [if_pos hbad] at h
      simp at h
      subst h
      exact ⟨le_refl _, by omega, fun m h1 h2 => by omega⟩
    · rw [if_neg hbad] at h
      have hok : w.connect i = 0 ∨ w.connect i = EEXIST := by tauto
      simp only [List.mem_cons] at h
      rcases h with h | h | h
      · cases h
      · cases h
        exact ⟨le_refl _, by omega, fun m h1 h2 => by omega⟩
      · obtain ⟨h1, h2, h3⟩ := ih (i + 1) h
        refine ⟨by omega, by omega, fun m hm1 hm2 => ?_⟩
        rcases Nat.eq_or_lt_of_le hm1 with e | e
        · rw [← e]; exact hok
        · exact h3 m e hm2

/-- The return value of `ddb_jack_init`, step by step. -/
theorem init_ret (w : InitWorld) (con : ddb_jack_connector) :
    (ddb_jack_init w con).ret =
      if w.status ≠ 0 then ENXIO
      else if w.process_cb ≠ 0 then EFAULT
      else if w.rate_cb ≠ 0 then EFAULT
      else if (register_ports w con.fmt.channels.toNat 0
          (init_samplerate w (init_open w con))).1 = false then EIO
      else if w.activate ≠ 0 then EIO
      else if w.playback_ports = false then ENXIO
      else if (connect_ports w con.fmt.channels.toNat 0).1 = false then EIO
      else 0 := by
  obtain ⟨-, -, r3, -, -, -⟩ := register_ports_frame w
    (init_samplerate w (init_open w con)).fmt.channels.toNat 0
    (init_samplerate w (init_open w con))
  have f2 : (init_samplerate w (init_open w con)).fmt.channels = con.fmt.channels := by
    simp [init_samplerate, init_open]
  rw [f2] at r3
  have r3c := congrArg ddb_waveformat_t.channels r3
  rw [f2] at r3c
  generalize hr : ddb_jack_init w con = r
  unfold ddb_jack_init at hr
  simp only [f2, r3c] at hr
  split_ifs at hr with a1 a2 a3 a4 a5 a6 a7 <;> subst hr <;> simp [*]

theorem register_ports_noConnect (w : InitWorld) (todo i j : Nat) (con : ddb_jack_connector) :
    Event.jack_connect j ∉ (register_ports w todo i con).2.2 := by
  induction todo generalizing i con with
  | zero => simp [register_ports]
  | succ n ih =>
    unfold register_ports
    cases hp : w.port i with
    | none => simp
    | some p =>
      intro h
      simp only [List.mem_cons] at h
      rcases h with h | h
      · cases h
      · exact ih _ _ h

/-- In a connect started disconnected, every `jack_connect` is one of the connection
loop. -/
theorem init_connect_events (w : InitWorld) (con : ddb_jack_connector)
    (hc : con.connected = false) (j : Nat)
    (h : Event.jack_connect j ∈ (ddb_jack_init w con).trace) :
    Event.jack_connect j ∈ (connect_ports w con.fmt.channels.toNat 0).2 := by
  obtain ⟨r1, -, r3, -, -, -⟩ := register_ports_frame w
    (init_samplerate w (init_open w con)).fmt.channels.toNat 0
    (init_samplerate w (init_open w con))
  have f2 : (init_samplerate w (init_open w con)).fmt.channels = con.fmt.channels := by
    simp [init_samplerate, init_open]
  have e1 : (init_open w con).connected = false := hc
  have e2 : (init_samplerate w (init_open w con)).connected = false := hc
  rw [e2, f2] at r1
  rw [f2] at r3
  have r3c := congrArg ddb_waveformat_t.channels r3
  rw [f2] at r3c
  have hreg := register_ports_noConnect w con.fmt.channels.toNat 0 j
    (init_samplerate w (init_open w con))
  generalize hr : ddb_jack_init w con = r at h
  unfold ddb_jack_init at hr
  simp only [f2, r3c] at hr
  split_ifs at hr <;> subst hr <;>
    simp [close_of_disconnected, e1, e2, r1, hreg] at h <;>
    exact h

/-- C12: a connect started disconnected returns 0 and sets `connected` iff every step
succeeds; otherwise it returns a non-zero code and `connected` stays false.  The code is
that of the first failing step: `ENXIO` when the open reports a status, `EFAULT` for a
callback registration, `EIO` for a port registration or the activation, `ENXIO` when no
list of playback ports is returned, `EIO` for a port connection.  A port connection is
attempted only when all earlier ones returned 0 or `EEXIST`, so none is attempted after
the first failing one. -/
theorem connect_result (w : InitWorld) (con : ddb_jack_connector)
    (hc : con.connected = false) :
    (((ddb_jack_init w con).ret = 0 ∧ (ddb_jack_init w con).con.connected = true) ↔
      AllStepsSucceed w con.fmt.channels.toNat) ∧
    (¬ AllStepsSucceed w con.fmt.channels.toNat →
      (ddb_jack_init w con).ret ≠ 0 ∧ (ddb_jack_init w con).con.connected = false) ∧
    (w.status ≠ 0 → (ddb_jack_init w con).ret = ENXIO) ∧
    (w.status = 0 → w.process_cb ≠ 0 ∨ w.rate_cb ≠ 0 → (ddb_jack_init w con).ret = EFAULT) ∧
    (w.status = 0 → w.process_cb = 0 → w.rate_cb = 0 →
      (∃ i, i < con.fmt.channels.toNat ∧ w.port i = none) →
      (ddb_jack_init w con).ret = EIO) ∧
    (w.status = 0 → w.process_cb = 0 → w.rate_cb = 0 →
      (∀ i, i < con.fmt.channels.toNat → (w.port i).isSome = true) → w.activate ≠ 0 →
      (ddb_jack_init w con).ret = EIO) ∧
    (w.status = 0 → w.process_cb = 0 → w.rate_cb = 0 →
      (∀ i, i < con.fmt.channels.toNat → (w.port i).isSome = true) → w.activate = 0 →
      w.playback_ports = false → (ddb_jack_init w con).ret = ENXIO) ∧
    (w.status = 0 → w.process_cb = 0 → w.rate_cb = 0 →
      (∀ i, i < con.fmt.channels.toNat → (w.port i).isSome = true) → w.activate = 0 →
      w.playback_ports = true →
      (∃ i, i < con.fmt.channels.toNat ∧ w.connect i ≠ 0 ∧ w.connect i ≠ EEXIST) →
      (ddb_jack_init w con).ret = EIO) ∧
    (∀ j, Event.jack_connect j ∈ (ddb_jack_init w con).trace →
      j < con.fmt.channels.toNat ∧
      ∀ m, m < j → (w.connect m = 0 ∨ w.connect m = EEXIST)) := by
  have hreg := register_ports_flag w con.fmt.channels.toNat 0
    (init_samplerate w (init_open w con))
  have hcn := connect_ports_flag w con.fmt.channels.toNat 0
  simp only [Nat.zero_add] at hreg hcn
  have hregf : (register_ports w con.fmt.channels.toNat 0
      (init_samplerate w (init_open w con))).1 = false ↔
      ¬ ∀ j, j < con.fmt.channels.toNat → (w.port j).isSome = true := by
    rw [← hreg]; simp
  have hcnf : (connect_ports w con.fmt.channels.toNat 0).1 = false ↔
      ¬ ∀ j, j < con.fmt.channels.toNat → (w.connect j = 0 ∨ w.connect j = EEXIST) := by
    rw [← hcn]; simp
  have hret := init_ret w con
  have hconn : ((ddb_jack_init w con).ret = 0 → (ddb_jack_init w con).con.connected = true) ∧
      ((ddb_jack_init w con).ret ≠ 0 → (ddb_jack_init w con).con.connected = false) := by
    rcases init_state_cases w con with ⟨h0, h1, -⟩ | ⟨h0, h1, -⟩ | ⟨-, h3, -, -⟩
    · exact ⟨fun _ => h1, fun h => absurd h0 h⟩
    · exact ⟨fun h => absurd h h0, fun _ => by rw [h1, hc]⟩
    · rw [hc] at h3; cases h3
  have hzero : (ddb_jack_init w con).ret = 0 ↔ AllStepsSucceed w con.fmt.channels.toNat := by
    rw [hret]
    unfold AllStepsSucceed
    constructor
    · intro h
      split_ifs at h with a1 a2 a3 a4 a5 a6 a7 <;>
        first
        | (exfalso; revert h; decide)
        | exact ⟨not_not.mp a1, not_not.mp a2, not_not.mp a3,
            not_not.mp (fun hn => a4 (hregf.mpr hn)), not_not.mp a5, by simpa using a6,
            not_not.mp (fun hn => a7 (hcnf.mpr hn))⟩
    · rintro ⟨b1, b2, b3, b4, b5, b6, b7⟩
      have c4 : ¬ (register_ports w con.fmt.channels.toNat 0
          (init_samplerate w (init_open w con))).1 = false := fun hn => hregf.mp hn b4
      have c7 : ¬ (connect_ports w con.fmt.channels.toNat 0).1 = false :=
        fun hn => hcnf.mp hn b7
      simp [b1, b2, b3, b5, b6, c4, c7]
  refine ⟨?_, ?_, ?_, ?_, ?_, ?_, ?_, ?_, ?_⟩
  · exact ⟨fun h => hzero.mp h.1, fun h => ⟨hzero.mpr h, hconn.1 (hzero.mpr h)⟩⟩
  · intro hn
    have : (ddb_jack_init w con).ret ≠ 0 := fun h => hn (hzero.mp h)
    exact ⟨this, hconn.2 this⟩
  · intro a1
    rw [hret, if_pos a1]
  · intro a1 a23
    rw [hret, if_neg (by simpa using a1)]
    rcases a23 with a2 | a3
    · rw [if_pos a2]
    · split_ifs <;> rfl
  · intro a1 a2 a3 ⟨i, hi, hp⟩
    have c4 : (register_ports w con.fmt.channels.toNat 0
        (init_samplerate w (init_open w con))).1 = false :=
      hregf.mpr (fun hall => by have := hall i hi; rw [hp] at this; cases this)
    rw [hret, if_neg (by simpa using a1), if_neg (by simpa using a2),
      if_neg (by simpa using a3), if_pos c4]
  · intro a1 a2 a3 a4 a5
    have c4 : ¬ (register_ports w con.fmt.channels.toNat 0
        (init_samplerate w (init_open w con))).1 = false := fun hn => hregf.mp hn a4
    rw [hret, if_neg (by simpa using a1), if_neg (by simpa using a2),
      if_neg (by simpa using a3), if_neg c4, if_pos a5]
  · intro a1 a2 a3 a4 a5 a6
    have c4 : ¬ (register_ports w con.fmt.channels.toNat 0
        (init_samplerate w (init_open w con))).1 = false := fun hn => hregf.mp hn a4
    rw [hret, if_neg (by simpa using a1), if_neg (by simpa using a2),
      if_neg (by simpa using a3), if_neg c4, if_neg (by simpa using a5), if_pos a6]
  · intro a1 a2 a3 a4 a5 a6 ⟨i, hi, hb1, hb2⟩
    have c4 : ¬ (register_ports w con.fmt.channels.toNat 0
        (init_samplerate w (init_open w con))).1 = false := fun hn => hregf.mp hn a4
    have c7 : (connect_ports w con.fmt.channels.toNat 0).1 = false :=
      hcnf.mpr (fun hall => by
        rcases hall i hi with h | h
        · exact hb1 h
        · exact hb2 h)
    rw [hret, if_neg (by simpa using a1), if_neg (by simpa using a2),
      if_neg (by simpa using a3), if_neg c4, if_neg (by simpa using a5),
      if_neg (by simpa using a6), if_pos c7]
  · intro j hj
    obtain ⟨-, h2, h3⟩ := connect_ports_stops w _ 0 j (init_connect_events w con hc j hj)
    exact ⟨by omega, fun m hm => h3 m (Nat.zero_le _) hm⟩

/-- C12 at the initial connector with a server on which every step succeeds. -/
theorem connect_result_witness :
    con_initial.connected = false ∧
    (((ddb_jack_init world_ok con_initial).ret = 0 ∧
        (ddb_jack_init world_ok con_initial).con.connected = true) ↔
      AllStepsSucceed world_ok con_initial.fmt.channels.toNat) :=
  ⟨rfl, (connect_result world_ok con_initial rfl).1⟩

/-! ## C13: the mitigation loop fills the period -/

/-- With a streamer that stays within the request, the mitigation loop keeps `inbytes`
between its start value and `size`, and when the mitigation is on it ends with
`inbytes = size`. -/
theorem fulfill_loop_bound (read : Nat → Int → ReadResult) (fulfill : Bool) (size : Int)
    (hread : WithinRequest read) (hsize : size < 2147483648) (fuel k : Nat) (inbytes : Int)
    (buf : Nat → Nat) (res : Int × (Nat → Nat) × List Event) (h0 : 0 ≤ inbytes)
    (hle : inbytes ≤ size)
    (h : fulfill_loop read fulfill size fuel k inbytes buf = some res) :
    inbytes ≤ res.1 ∧ res.1 ≤ size ∧ (fulfill = true → res.1 = size) := by
  induction fuel generalizing k inbytes buf res with
  | zero =>
    unfold fulfill_loop at h
    split_ifs at h with hcond
    cases h
    refine ⟨le_refl _, hle, fun hf => ?_⟩
    have : ¬ inbytes < size := fun hlt => hcond ⟨hf, hlt⟩
    omega
  | succ n ih =>
    unfold fulfill_loop at h
    split_ifs at h with hcond
    · cases hr : read k (size - inbytes) with
      | eof =>
        rw [hr] at h
        simp only [Option.map_eq_some'] at h
        obtain ⟨r, hr2, rfl⟩ := h
        exact ih (k + 1) inbytes buf r h0 hle hr2
      | bytes data =>
        rw [hr] at h
        simp only [Option.map_eq_some'] at h
        obtain ⟨r, hr2, rfl⟩ := h
        have hlen := hread k _ data hr
        have hnn : (0 : Int) ≤ data.length := Int.ofNat_nonneg _
        have e : toInt32 (inbytes + data.length) = inbytes + data.length :=
          toInt32_of_range _ (by omega) (by omega)
        rw [e] at hr2
        obtain ⟨a, b, c⟩ := ih (k + 1) _ _ r (by omega) (by omega) hr2
        exact ⟨by omega, b, c⟩
    · cases h
      refine ⟨le_refl _, hle, fun hf => ?_⟩
      have : ¬ inbytes < size := fun hlt => hcond ⟨hf, hlt⟩
      omega

/-- An `EOF` inside the mitigation loop adds no bytes: the iteration only records the
read and the loop goes on with the same `inbytes` and `buf`. -/
theorem fulfill_loop_eof (read : Nat → Int → ReadResult) (size : Int) (fuel k : Nat)
    (inbytes : Int) (buf : Nat → Nat) (hlt : inbytes < size)
    (hr : read k (size - inbytes) = ReadResult.eof) :
    fulfill_loop read true size (fuel + 1) k inbytes buf =
      (fulfill_loop read true size fuel (k + 1) inbytes buf).map
        fun r => (r.1, r.2.1, Event.streamer_read (size - inbytes) :: r.2.2) := by
  rw [fulfill_loop, if_pos ⟨rfl, hlt⟩, hr]

/-- The value `bufsize` for 32-bit samples when the product does not overflow. -/
theorem bufsize_float (fmt : ddb_waveformat_t) (n : Nat) (hb : fmt.bps = 32)
    (hch : 0 < fmt.channels) (hsz : (n : Int) * fmt.channels * 4 < 2147483648) :
    bufsize fmt n = n * fmt.channels * 4 := by
  have hn0 : (0 : Int) ≤ n := Int.ofNat_nonneg n
  have h1 : (n : Int) ≤ n * fmt.channels := by nlinarith
  have e1 : toInt32 (n : Int) = n := toInt32_of_range _ (by omega) (by omega)
  have e2 : toInt32 ((n : Int) * fmt.channels) = n * fmt.channels :=
    toInt32_of_range _ (by nlinarith) (by omega)
  have e3 : toInt32 ((n : Int) * fmt.channels * 4) = n * fmt.channels * 4 :=
    toInt32_of_range _ (by nlinarith) (by omega)
  have e4 : Int.tdiv 32 8 = 4 := by decide
  unfold bufsize
  rw [hb, e4, e1, e2, e3]

theorem world_two_halves_within : WithinRequest world_two_halves.streamer_read := by
  intro k size data h
  simp only [world_two_halves] at h
  split_ifs at h with hk
  cases h
  simp only [List.length_replicate]
  have : ¬ size < 0 := fun hn => hk (Or.inr hn)
  omega

/-- C13: with the mitigation on, connected and Playing, 32-bit samples, `channels > 0`
(request and `channels * bps` representable) and a streamer whose reads return `EOF` or a
count within the request: when the first read is not `EOF` and the loop ends within the
fuel, the accumulated `inbytes` is exactly the request `n * channels * 4`, the callback
returns 0, changes only the clean flag (the playback state stays Playing) and stores
exactly `n` samples, one per frame, to each port buffer.  An `EOF` inside the loop adds
no bytes: the iteration leaves `inbytes` and `buf` as they are. -/
theorem mitigation_fills_period {F : Type} (ops : SampleOps F) (w : ProcWorld F)
    (fuel n : Nat) (con : ddb_jack_connector) (data : List Nat) (inbytes : Int)
    (buf : Nat → Nat) (reads : List Event)
    (hc : con.connected = true) (hs : con.state = DDB_PLAYBACK_STATE_PLAYING)
    (hf : con.fulfill = true) (hb : con.fmt.bps = 32) (hch : 0 < con.fmt.channels)
    (hchb : con.fmt.channels * 32 < 2147483648)
    (hsz : (n : Int) * con.fmt.channels * 32 < 2147483648)
    (hwithin : WithinRequest w.streamer_read)
    (hread : w.streamer_read 0 (bufsize con.fmt n) = ReadResult.bytes data)
    (hloop : fulfill_loop w.streamer_read con.fulfill (bufsize con.fmt n) fuel 1
      data.length (store w.stack 0 data) = some (inbytes, buf, reads)) :
    inbytes = n * con.fmt.channels * 4 ∧
    (∃ r, jack_proc_cb ops w fuel n con = some r ∧ r.ret = 0 ∧
      r.con = { con with clean := false } ∧
      r.con.state = DDB_PLAYBACK_STATE_PLAYING ∧
      (∀ wr ∈ r.writes, wr.ch < con.fmt.channels.toNat ∧ wr.pos < n) ∧
      ∀ c, c < con.fmt.channels.toNat →
        r.writes.filter (fun wr => decide (wr.ch = c)) =
          (List.range n).map fun f =>
            ⟨c, f, ops.mul (floatAt ops buf (con.fmt.channels.toNat * f + c))
              w.volume_amp⟩) ∧
    (∀ (fuel2 k : Nat) (inb : Int) (b : Nat → Nat), inb < bufsize con.fmt n →
      w.streamer_read k (bufsize con.fmt n - inb) = ReadResult.eof →
      fulfill_loop w.streamer_read true (bufsize con.fmt n) (fuel2 + 1) k inb b =
        (fulfill_loop w.streamer_read true (bufsize con.fmt n) fuel2 (k + 1) inb b).map
          fun r => (r.1, r.2.1, Event.streamer_read (bufsize con.fmt n - inb) :: r.2.2)) := by
  have hn0 : (0 : Int) ≤ n := Int.ofNat_nonneg n
  have hnc : (0 : Int) ≤ n * con.fmt.channels := by nlinarith
  have hsize := bufsize_float con.fmt n hb hch (by omega)
  have hd0 : (0 : Int) ≤ data.length := Int.ofNat_nonneg _
  have hdle : (data.length : Int) ≤ bufsize con.fmt n := hwithin 0 _ data hread
  obtain ⟨-, -, heq⟩ := fulfill_loop_bound w.streamer_read con.fulfill (bufsize con.fmt n)
    hwithin (by rw [hsize]; omega) fuel 1 data.length (store w.stack 0 data)
    (inbytes, buf, reads) hd0 hdle hloop
  have hin : inbytes = n * con.fmt.channels * 4 := by rw [← hsize]; exact heq hf
  obtain ⟨r, hr, hret, hcon, hmem, hval⟩ := proc_cb_deinterleave ops w fuel n con data
    inbytes buf reads hc hs hb hch hchb hread hloop (by omega) (by omega)
  have hq : (inbytes / (4 * con.fmt.channels)).toNat = n := by
    have e : inbytes = 4 * con.fmt.channels * n := by rw [hin]; ring
    rw [e, Int.mul_ediv_cancel_left _ (by omega : (4 * con.fmt.channels : Int) ≠ 0)]
    exact Int.toNat_ofNat n
  rw [hq] at hmem hval
  refine ⟨hin, ⟨r, hr, hret, hcon, by rw [hcon]; exact hs, hmem, hval⟩, ?_⟩
  intro fuel2 k inb b hlt hr2
  exact fulfill_loop_eof w.streamer_read _ fuel2 k inb b hlt hr2

/-- C13 on a period of one stereo frame delivered in two reads of four bytes with an
`EOF` in between: the loop ends with the eight bytes requested. -/
theorem mitigation_fills_period_witness :
    con_playing.fulfill = true ∧
    ((8 : Int) = (1 : Nat) * con_playing.fmt.channels * 4) :=
  ⟨by decide,
    (mitigation_fills_period ops_int world_two_halves 3 1 con_playing [7, 7, 7, 7] 8
      (store (store world_two_halves.stack 0 [7, 7, 7, 7]) 4 [7, 7, 7, 7])
      [Event.streamer_read 4, Event.streamer_read 4]
      (by decide) (by decide) (by decide) (by decide) (by decide) (by decide) (by decide)
      world_two_halves_within rfl rfl).1⟩


/-! ## C14: the mitigation loop can spin -/

theorem toInt32_bounds (x : Int) : -2147483648 ≤ toInt32 x ∧ toInt32 x < 2147483648 := by
  unfold toInt32; omega

theorem bufsize_lt (fmt : ddb_waveformat_t) (n : Nat) : bufsize fmt n < 2147483648 :=
  (toInt32_bounds _).2

/-- While every further read returns `EOF` or no bytes, the mitigation loop never ends:
whatever the fuel, its condition still holds when the fuel is used up. -/
theorem fulfill_loop_starved (read : Nat → Int → ReadResult) (size : Int)
    (hsize : size < 2147483648)
    (hstarved : ∀ k size2, 1 ≤ k → read k size2 = ReadResult.eof ∨
      read k size2 = ReadResult.bytes [])
    (fuel k : Nat) (inbytes : Int) (buf : Nat → Nat) (hk : 1 ≤ k) (h0 : 0 ≤ inbytes)
    (hlt : inbytes < size) :
    fulfill_loop read true size fuel k inbytes buf = none := by
  induction fuel generalizing k buf with
  | zero => simp [fulfill_loop, hlt]
  | succ n ih =>
    rw [fulfill_loop, if_pos ⟨rfl, hlt⟩]
    rcases hstarved k (size - inbytes) hk with h | h
    · rw [h]
      simp only []
      rw [ih (k + 1) buf (by omega)]
      rfl
    · rw [h]
      simp only [List.length_nil, Int.ofNat_zero, Nat.cast_zero, Int.add_zero]
      rw [toInt32_of_range _ (by omega) (by omega), ih (k + 1) _ (by omega)]
      rfl

theorem get_buffers_noRead (channels : Int) (n : Nat) :
    (get_buffers channels n).filter Event.isRead = [] := by
  rw [List.filter_eq_nil_iff]
  intro e he
  simp only [get_buffers, List.mem_map] at he
  obtain ⟨ch, -, rfl⟩ := he
  simp [Event.isRead]

/-- C14: with the mitigation on, connected and Playing, for every streamer that returns
fewer bytes than requested on the first read and then `EOF` or no bytes on every further
read, the loop of the callback does not end: for every number of iterations allowed the
loop condition still holds after them, so the callback has no result; `world_starved` is
such a streamer for a period of one frame.  With the mitigation off the callback returns
for every fuel after exactly one `streamer_read`. -/
theorem mitigation_can_spin {F : Type} (ops : SampleOps F) (n : Nat)
    (con : ddb_jack_connector) (hc : con.connected = true)
    (hs : con.state = DDB_PLAYBACK_STATE_PLAYING) :
    (con.fulfill = true → ∀ (w : ProcWorld F) (data : List Nat),
      w.streamer_read 0 (bufsize con.fmt n) = ReadResult.bytes data →
      (data.length : Int) < bufsize con.fmt n →
      (∀ k size, 1 ≤ k → w.streamer_read k size = ReadResult.eof ∨
        w.streamer_read k size = ReadResult.bytes []) →
      ∀ fuel : Nat,
        fulfill_loop w.streamer_read true (bufsize con.fmt n) fuel 1 data.length
          (store w.stack 0 data) = none ∧
        jack_proc_cb ops w fuel n con = none) ∧
    (con.fulfill = false → ∀ (w : ProcWorld F) (fuel : Nat),
      ∃ r, jack_proc_cb ops w fuel n con = some r ∧
        r.trace.filter Event.isRead = [Event.streamer_read (bufsize con.fmt n)]) := by
  constructor
  · intro hf w data hread hlt hstarved fuel
    have hloop := fulfill_loop_starved w.streamer_read (bufsize con.fmt n) (bufsize_lt _ _)
      hstarved fuel 1 data.length (store w.stack 0 data) (le_refl 1) (Int.ofNat_nonneg _) hlt
    refine ⟨hloop, ?_⟩
    simp [jack_proc_cb, hc, hs, hread, hf, hloop]
  · intro hf w fuel
    cases hread : w.streamer_read 0 (bufsize con.fmt n) with
    | eof =>
      exact ⟨_, proc_cb_eof ops w fuel n con hc hs hread, by simp [Event.isRead]⟩
    | bytes data =>
      have hloop := fulfill_loop_done w.streamer_read con.fulfill (bufsize con.fmt n) fuel 1
        data.length (store w.stack 0 data) (Or.inl hf)
      refine ⟨_, proc_cb_bytes ops w fuel n con hc hs data hread _ _ _ hloop, ?_⟩
      simp only [List.cons_append, List.nil_append, List.filter_cons, Event.isRead, if_true,
        List.filter_append, get_buffers_noRead, List.filter_nil, if_false]
      simp

/-- C14 on `con_playing` (mitigation on) with `world_starved` and a period of one frame:
with 1000 iterations allowed the callback has no result. -/
theorem mitigation_can_spin_witness :
    con_playing.fulfill = true ∧
    jack_proc_cb ops_int world_starved 1000 1 con_playing = none :=
  ⟨by decide,
    (((mitigation_can_spin ops_int 1 con_playing (by decide) (by decide)).1 (by decide)
      world_starved [1, 0, 0, 0] rfl (by decide)
      (fun k size hk => Or.inl (by
        simp only [world_starved]
        rw [if_neg (by omega)])))
      1000).2⟩


/-! ## C15: the format is fixed -/

theorem sameLayout_refl (a : ddb_waveformat_t) : SameLayout a a :=
  ⟨rfl, rfl, rfl, rfl, rfl⟩

theorem sameLayout_trans {a b c : ddb_waveformat_t} (h1 : SameLayout a b)
    (h2 : SameLayout b c) : SameLayout a c :=
  ⟨h1.1.trans h2.1, h1.2.1.trans h2.2.1, h1.2.2.1.trans h2.2.2.1,
    h1.2.2.2.1.trans h2.2.2.2.1, h1.2.2.2.2.trans h2.2.2.2.2⟩

theorem init_sameLayout (w : InitWorld) (con : ddb_jack_connector) :
    SameLayout (ddb_jack_init w con).con.fmt con.fmt := by
  obtain ⟨-, -, r3, -, -, -⟩ := register_ports_frame w
    (init_samplerate w (init_open w con)).fmt.channels.toNat 0
    (init_samplerate w (init_open w con))
  have l1 : SameLayout (init_open w con).fmt con.fmt := sameLayout_refl _
  have l2 : SameLayout (init_samplerate w (init_open w con)).fmt con.fmt := by
    simp [SameLayout, init_samplerate, init_open]
  have l3 := l2
  rw [← r3] at l3
  generalize hr : ddb_jack_init w con = r
  unfold ddb_jack_init at hr
  simp only [] at hr
  split_ifs at hr <;> subst hr <;>
    simp only [(close_frame _ _ _).2.2.1, l1, l2, l3]

theorem setformat_sameLayout (w : InitWorld) (fmt : ddb_waveformat_t)
    (con : ddb_jack_connector) :
    SameLayout (ddb_jack_setformat w fmt con).con.fmt con.fmt := by
  rw [setformat_con]
  split_ifs
  · exact init_sameLayout w con
  · exact sameLayout_refl _

theorem setformat_ret (w : InitWorld) (fmt : ddb_waveformat_t) (con : ddb_jack_connector) :
    (ddb_jack_setformat w fmt con).ret =
      if con.connected = false then (ddb_jack_init w con).ret else 0 := by
  unfold ddb_jack_setformat
  by_cases hc : con.connected = false
  · rw [if_pos hc, if_pos hc]
    simp only []
    split_ifs <;> rfl
  · rw [if_neg hc, if_neg hc]

theorem play_sameLayout (w : InitWorld) (con : ddb_jack_connector) :
    SameLayout (ddb_playback_play w con).con.fmt con.fmt := by
  unfold ddb_playback_play
  by_cases hc : con.connected = false
  · rw [if_pos hc]
    simp only []
    split_ifs
    · exact init_sameLayout w con
    · exact init_sameLayout w con
  · rw [if_neg hc]
    exact sameLayout_refl _

theorem close_sameLayout (closeRet : Int) (disconnect : Bool) (con : ddb_jack_connector) :
    SameLayout (ddb_jack_close closeRet disconnect con).con.fmt con.fmt := by
  rw [(close_frame _ _ _).2.2.1]
  exact sameLayout_refl _

theorem rate_cb_sameLayout (nframes server_rate : Nat) (con : ddb_jack_connector) :
    SameLayout (jack_rate_cb nframes server_rate con).con.fmt con.fmt := by
  unfold jack_rate_cb
  simp only []
  split_ifs
  · simp [SameLayout]
  · exact sameLayout_refl _

/-- In every reachable state the format has the layout of the initialiser of `plugin`. -/
theorem sameLayout_of_reachable {con : ddb_jack_connector} (h : Reachable con) :
    SameLayout con.fmt plugin_fmt := by
  induction h with
  | initial => exact sameLayout_refl _
  | init w _ ih => exact sameLayout_trans (init_sameLayout w _) ih
  | setformat w fmt _ ih => exact sameLayout_trans (setformat_sameLayout w fmt _) ih
  | play w _ ih => exact sameLayout_trans (play_sameLayout w _) ih
  | unpause w _ ih => exact sameLayout_trans (play_sameLayout w _) ih
  | @pause con _ ih =>
    unfold ddb_playback_pause
    split_ifs
    · exact ih
    · exact ih
  | stop _ ih => exact ih
  | free closeRet _ ih => exact sameLayout_trans (close_sameLayout _ _ _) ih
  | process ops w fuel inframes r _ hr ih =>
    rw [(proc_cb_state ops w fuel inframes _ r hr).2.1]
    exact ih
  | rate nframes server_rate _ ih => exact sameLayout_trans (rate_cb_sameLayout _ _ _) ih
  | shutdown _ ih => exact sameLayout_trans (close_sameLayout _ _ _) ih

/-- C15: every operation of the plugin leaves `channels`, `bps`, `is_float`,
`channelmask` and `is_bigendian` of the format as they are (only `samplerate` can
change): `init`, `setformat` with any requested format, `play`, `unpause`, `pause`,
`stop`, `free`, the process callback, the sample-rate notifier and the shutdown notifier.
Hence in every reachable state the format is 32-bit float, 2 channels, front left and
front right, little endian.  In particular `setformat` does not copy the requested
format: the outcome is the same for every request up to the detailed log. -/
theorem format_fixed (con : ddb_jack_connector) :
    (∀ w, SameLayout (plugin_init w con).con.fmt con.fmt) ∧
    (∀ w fmt, SameLayout (ddb_jack_setformat w fmt con).con.fmt con.fmt) ∧
    (∀ w, SameLayout (plugin_play w con).con.fmt con.fmt) ∧
    (∀ w, SameLayout (plugin_unpause w con).con.fmt con.fmt) ∧
    (ddb_playback_pause con).con.fmt = con.fmt ∧
    (ddb_playback_stop con).con.fmt = con.fmt ∧
    (∀ closeRet, (ddb_jack_free closeRet con).con.fmt = con.fmt) ∧
    (∀ (F : Type) (ops : SampleOps F) (w : ProcWorld F) (fuel n : Nat) (r : ProcOutcome F),
      jack_proc_cb ops w fuel n con = some r → r.con.fmt = con.fmt) ∧
    (∀ nframes server_rate,
      SameLayout (jack_rate_cb nframes server_rate con).con.fmt con.fmt) ∧
    (jack_shutdown_cb con).con.fmt = con.fmt ∧
    (Reachable con →
      con.fmt.bps = 32 ∧ con.fmt.is_float = true ∧ con.fmt.channels = 2 ∧
      con.fmt.channelmask = 3 ∧ con.fmt.is_bigendian = false) ∧
    (∀ w fmt fmt2, (ddb_jack_setformat w fmt con).con = (ddb_jack_setformat w fmt2 con).con ∧
      (ddb_jack_setformat w fmt con).ret = (ddb_jack_setformat w fmt2 con).ret) := by
  refine ⟨fun w => init_sameLayout w con, fun w fmt => setformat_sameLayout w fmt con,
    fun w => play_sameLayout w con, fun w => play_sameLayout w con, ?_, rfl,
    fun c => (close_frame c true con).2.2.1, ?_, fun a b => rate_cb_sameLayout a b con,
    (close_frame 0 false con).2.2.1, ?_, ?_⟩
  · unfold ddb_playback_pause
    split_ifs <;> rfl
  · intro F ops w fuel n r hr
    exact (proc_cb_state ops w fuel n con r hr).2.1
  · intro h
    obtain ⟨h1, h2, h3, h4, h5⟩ := sameLayout_of_reachable h
    exact ⟨h1, h3, h2, h4, h5⟩
  · intro w fmt fmt2
    rw [setformat_con, setformat_con, setformat_ret, setformat_ret]
    exact ⟨rfl, rfl⟩

/-- C15 on the connector left by `setformat` with the request `fmt_request` on the
initial connector: it is reachable and still 32-bit float stereo. -/
theorem format_fixed_witness :
    Reachable (ddb_jack_setformat world_ok fmt_request con_initial).con ∧
    (ddb_jack_setformat world_ok fmt_request con_initial).con.fmt.bps = 32 ∧
    (ddb_jack_setformat world_ok fmt_request con_initial).con.fmt.channels = 2 :=
  ⟨Reachable.setformat world_ok fmt_request Reachable.initial,
    ((format_fixed (ddb_jack_setformat world_ok fmt_request con_initial).con).2.2.2.2.2.2.2.2.2.2.1
      (Reachable.setformat world_ok fmt_request Reachable.initial)).1,
    ((format_fixed (ddb_jack_setformat world_ok fmt_request con_initial).con).2.2.2.2.2.2.2.2.2.2.1
      (Reachable.setformat world_ok fmt_request Reachable.initial)).2.2.1⟩

/-! ## C16: playback only while connected -/

/-- C16: in every reachable state a disconnected connector is Stopped; equivalently the
playback state is Playing or Paused only while connected. -/
theorem playing_only_connected {con : ddb_jack_connector} (h : Reachable con) :
    (con.connected = false → con.state = DDB_PLAYBACK_STATE_STOPPED) ∧
    (con.state = DDB_PLAYBACK_STATE_PLAYING ∨ con.state = DDB_PLAYBACK_STATE_PAUSED →
      con.connected = true) := by
  have hinv := stoppedWhenDisconnected_of_reachable h
  refine ⟨hinv, fun hs => ?_⟩
  cases hc : con.connected
  · have := hinv hc
    rcases hs with hs | hs <;> rw [this] at hs <;> cases hs
  · rfl

/-- C16 on the connector left by a failed `play` from the initial state. -/
theorem playing_only_connected_witness :
    Reachable (plugin_play world_process_cb_fails con_initial).con ∧
    ((plugin_play world_process_cb_fails con_initial).con.connected = false →
      (plugin_play world_process_cb_fails con_initial).con.state =
        DDB_PLAYBACK_STATE_STOPPED) :=
  ⟨Reachable.play world_process_cb_fails Reachable.initial,
    (playing_only_connected (Reachable.play world_process_cb_fails Reachable.initial)).1⟩


/-! ## C17: bounds of the conversion loop -/

/-- C17: with 32-bit samples, `channels > 0` (request and `channels * bps` representable)
and a streamer that returns at most the requested count, once the reads of the period have
delivered `inbytes` bytes: `inbytes` is at most `bufsize`, the frame count is at most the
period `n`, so every store of the conversion goes to a position below `n` of a port below
`channels`, and for every frame below the frame count and every channel the float index
`channels * frame + ch` that is read satisfies `4 * (index + 1) ≤ inbytes`.  For the
16-bit format the index bound fails: with 2 channels and a period of one frame, 4 bytes
are requested and delivered, the frame count is 1 and the float read for channel 1 is at
index 1, bytes 4 to 7. -/
theorem conversion_in_bounds :
    (∀ (read : Nat → Int → ReadResult) (fulfill : Bool) (stack : Nat → Nat)
      (fmt : ddb_waveformat_t) (n fuel : Nat) (data : List Nat) (inbytes : Int)
      (buf : Nat → Nat) (reads : List Event),
      fmt.bps = 32 → 0 < fmt.channels → fmt.channels * 32 < 2147483648 →
      (n : Int) * fmt.channels * 32 < 2147483648 → WithinRequest read →
      read 0 (bufsize fmt n) = ReadResult.bytes data →
      fulfill_loop read fulfill (bufsize fmt n) fuel 1 data.length (store stack 0 data) =
        some (inbytes, buf, reads) →
      inbytes ≤ bufsize fmt n ∧ outframes fmt inbytes ≤ n ∧
      (∀ frame ch, frame < outframes fmt inbytes → ch < fmt.channels.toNat →
        4 * ((toUInt32 (fmt.channels * frame + ch) : Int) + 1) ≤ inbytes) ∧
      (∀ (F : Type) (ops : SampleOps F) (vol : F),
        ∀ wr ∈ convert ops fmt.channels (outframes fmt inbytes) buf vol,
          wr.pos < n ∧ wr.ch < fmt.channels.toNat)) ∧
    (bufsize fmt_16bit 1 = 4 ∧ outframes fmt_16bit 4 = 1 ∧
      (0 < outframes fmt_16bit 4 ∧ 1 < fmt_16bit.channels.toNat ∧
        ¬ 4 * ((toUInt32 (fmt_16bit.channels * (0 : Nat) + (1 : Nat)) : Int) + 1) ≤ 4)) := by
  constructor
  · intro read fulfill stack fmt n fuel data inbytes buf reads hb hch hchb hsz hwithin hread
      hloop
    have hn0 : (0 : Int) ≤ n := Int.ofNat_nonneg n
    have hnc : (0 : Int) ≤ n * fmt.channels := by nlinarith
    have hsize := bufsize_float fmt n hb hch (by omega)
    have hd0 : (0 : Int) ≤ data.length := Int.ofNat_nonneg _
    have hdle : (data.length : Int) ≤ bufsize fmt n := hwithin 0 _ data hread
    obtain ⟨hge, hle, -⟩ := fulfill_loop_bound read fulfill (bufsize fmt n)
      hwithin (by rw [hsize]; omega) fuel 1 data.length (store stack 0 data)
      (inbytes, buf, reads) hd0 hdle hloop
    simp only [] at hge hle
    have h0 : 0 ≤ inbytes := by omega
    have h8 : inbytes * 8 < 2147483648 := by rw [hsize] at hle; omega
    have hof := outframes_float fmt inbytes hb hch hchb h0 h8
    have hq0 : 0 ≤ inbytes / (4 * fmt.channels) := Int.ediv_nonneg h0 (by omega)
    have hqn : inbytes / (4 * fmt.channels) ≤ n := by
      have e : bufsize fmt n = 4 * fmt.channels * n := by rw [hsize]; ring
      have h1 : inbytes / (4 * fmt.channels) ≤ bufsize fmt n / (4 * fmt.channels) :=
        Int.ediv_le_ediv (by omega) hle
      rwa [e, Int.mul_ediv_cancel_left _ (by omega : (4 * fmt.channels : Int) ≠ 0)] at h1
    have hon : outframes fmt inbytes ≤ n := by rw [hof]; omega
    refine ⟨hle, hon, ?_, ?_⟩
    · intro frame ch hfr hc2
      rw [hof] at hfr
      obtain ⟨e, hb2⟩ := index_no_wrap fmt.channels inbytes frame ch hch h0 h8 hfr hc2
      rw [e]
      exact hb2
    · intro F ops vol wr hwr
      rw [convert_eq_rows] at hwr
      obtain ⟨a, b⟩ := rows_mem _ _ _ wr hwr
      exact ⟨by omega, a⟩
  · refine ⟨by decide, by decide, by decide, by decide, by decide⟩

/-- The general part of C17 on a period of one stereo frame of 32-bit samples, with a
streamer that returns the eight bytes of a frame, or `EOF` when asked for fewer. -/
theorem conversion_in_bounds_witness :
    (8 : Int) ≤ bufsize plugin_fmt 1 ∧ outframes plugin_fmt 8 ≤ 1 :=
  ⟨(conversion_in_bounds.1 (fun _ size =>
        if size < 8 then ReadResult.eof else ReadResult.bytes [1, 0, 0, 0, 2, 0, 0, 0])
      false (fun _ => 0) plugin_fmt 1 0 [1, 0, 0, 0, 2, 0, 0, 0] 8
      (store (fun _ => 0) 0 [1, 0, 0, 0, 2, 0, 0, 0]) [] (by decide) (by decide) (by decide)
      (by decide)
      (by
        intro k size data h
        simp only [] at h
        split_ifs at h with hs
        cases h
        simp only [List.length_cons, List.length_nil]
        omega)
      rfl rfl).1,
    (conversion_in_bounds.1 (fun _ size =>
        if size < 8 then ReadResult.eof else ReadResult.bytes [1, 0, 0, 0, 2, 0, 0, 0])
      false (fun _ => 0) plugin_fmt 1 0 [1, 0, 0, 0, 2, 0, 0, 0] 8
      (store (fun _ => 0) 0 [1, 0, 0, 0, 2, 0, 0, 0]) [] (by decide) (by decide) (by decide)
      (by decide)
      (by
        intro k size data h
        simp only [] at h
        split_ifs at h with hs
        cases h
        simp only [List.length_cons, List.length_nil]
        omega)
      rfl rfl).2.1⟩

end DdbJack
